import Mathlib

/-!
Shallow embedding of the core of the `amdados` advection-diffusion data
assimilation engine, together with theorems checking the natural-language
specification against the code.

Machine doubles are modelled as exact rationals.  Dense matrices are modelled
as total functions `Nat → Nat → ℚ`; every imperative routine only ever reads
and writes entries inside its declared `rows × cols` window, so a theorem about
the window entries is a theorem about the C++ matrix content.  Randomness
(`std::mt19937_64` draws in `ComputeQ` / `ComputeR`) and the transcendental
flow model (`Flow`, built from `std::sin`) enter the routines as oracle
parameters.  Fatal `assert_true` failures and factorization failures are
modelled by `Option`.
-/

namespace Amdados

abbrev Mat := Nat → Nat → ℚ

abbrev Vec := Nat → ℚ

/-- Sum of `f 0 + f 1 + ... + f (n-1)`; used for the inner loops of the
matrix products in `matrix.cpp` (`MatMult`, `MatMultTr`, `MatVecMult`). -/
def dotRange (n : Nat) (f : Nat → ℚ) : ℚ := ((List.range n).map f).sum

/-- Squared Frobenius norm of `A - Aᵀ` restricted to the `n × n` window;
zero exactly when the window is symmetric. -/
def frobSqDiff (n : Nat) (A : Mat) : ℚ :=
  ((List.range n).map (fun i =>
    ((List.range n).map (fun j => (A i j - A j i) ^ 2)).sum)).sum

/-!
## Symmetrize (src/code/app/src/matrix.cpp, lines 183-191)

The C++ double loop `for i < n, for j in (i, n): A(j,i) = A(i,j) =
0.5 * (A(j,i) + A(i,j))` is embedded as a fold over the list of index pairs
`(i, j)` with `i < j < n`, in the loop order.  One loop body reads the two
old entries and writes the same averaged value to both positions.
-/

/-- Index pairs `(i, j)`, `i < j < n`, in the order of the C++ double loop. -/
def symPairs (n : Nat) : List (Nat × Nat) :=
  ((List.range n).product (List.range n)).filter (fun p => decide (p.1 < p.2))

/-- One body of the `Symmetrize` double loop:
`A(j,i) = A(i,j) = 0.5 * (A(j,i) + A(i,j))`. -/
def symStep (A : Mat) (p : Nat × Nat) : Mat :=
  fun r c =>
    if r = p.1 ∧ c = p.2 then (1 / 2) * (A p.2 p.1 + A p.1 p.2)
    else if r = p.2 ∧ c = p.1 then (1 / 2) * (A p.2 p.1 + A p.1 p.2)
    else A r c

/-- Embedding of `Symmetrize` acting on the `n × n` window of `A`. -/
def Symmetrize (n : Nat) (A : Mat) : Mat :=
  (symPairs n).foldl symStep A

lemma mem_symPairs_iff {n : Nat} {p : Nat × Nat} :
    p ∈ symPairs n ↔ p.1 < n ∧ p.2 < n ∧ p.1 < p.2 := by
  rcases p with ⟨a, b⟩
  simp [symPairs, List.mem_filter, List.mem_product, List.mem_range, and_assoc]

lemma symStep_establishes {A : Mat} {i j : Nat} (hp : i < j) :
    symStep A (i, j) i j = symStep A (i, j) j i := by
  have hne : ¬(j = i ∧ i = j) := by rintro ⟨h1, -⟩; omega
  simp [symStep, hne]

lemma symStep_preserves {A : Mat} {p : Nat × Nat} (hp : p.1 < p.2)
    {a b : Nat} (h : A a b = A b a) :
    symStep A p a b = symStep A p b a := by
  rcases p with ⟨i, j⟩
  simp only at hp
  by_cases h1 : a = i ∧ b = j
  · rcases h1 with ⟨rfl, rfl⟩
    exact symStep_establishes hp
  · by_cases h2 : a = j ∧ b = i
    · rcases h2 with ⟨rfl, rfl⟩
      exact (symStep_establishes hp).symm
    · have e1 : symStep A (i, j) a b = A a b := by
        simp only [symStep]
        rw [if_neg h1, if_neg h2]
      have e2 : symStep A (i, j) b a = A b a := by
        simp only [symStep]
        rw [if_neg (fun hc => h2 ⟨hc.2, hc.1⟩), if_neg (fun hc => h1 ⟨hc.2, hc.1⟩)]
      rw [e1, e2]
      exact h

lemma foldl_symStep_preserves (L : List (Nat × Nat))
    (hL : ∀ p ∈ L, p.1 < p.2) :
    ∀ (A : Mat) (a b : Nat), A a b = A b a →
      (L.foldl symStep A) a b = (L.foldl symStep A) b a := by
  induction L with
  | nil => intro A _ _ h; exact h
  | cons q L ih =>
      intro A a b h
      simp only [List.foldl_cons]
      exact ih (fun p hp => hL p (List.mem_cons_of_mem q hp)) (symStep A q) a b
        (symStep_preserves (hL q (List.mem_cons_self q L)) h)

lemma foldl_symStep_mem (L : List (Nat × Nat))
    (hL : ∀ p ∈ L, p.1 < p.2) :
    ∀ (A : Mat) (a b : Nat), (a, b) ∈ L →
      (L.foldl symStep A) a b = (L.foldl symStep A) b a := by
  induction L with
  | nil => intro A a b hab; cases hab
  | cons q L ih =>
      intro A a b hab
      simp only [List.foldl_cons]
      rcases List.mem_cons.mp hab with heq | hmem
      · have hq : q.1 < q.2 := hL q (List.mem_cons_self q L)
        have hbase : symStep A q a b = symStep A q b a := by
          rw [← heq] at hq ⊢
          exact symStep_establishes hq
        exact foldl_symStep_preserves L
          (fun p hp => hL p (List.mem_cons_of_mem q hp)) (symStep A q) a b hbase
      · exact ih (fun p hp => hL p (List.mem_cons_of_mem q hp)) (symStep A q) a b hmem

/-- After `Symmetrize`, the `n × n` window is symmetric. -/
theorem Symmetrize_symm (n : Nat) (A : Mat) {i j : Nat}
    (hi : i < n) (hj : j < n) :
    Symmetrize n A i j = Symmetrize n A j i := by
  have hall : ∀ p ∈ symPairs n, p.1 < p.2 :=
    fun p hp => (mem_symPairs_iff.mp hp).2.2
  rcases lt_trichotomy i j with h | h | h
  · exact foldl_symStep_mem (symPairs n) hall A i j
      (mem_symPairs_iff.mpr ⟨hi, hj, h⟩)
  · subst h; rfl
  · exact (foldl_symStep_mem (symPairs n) hall A j i
      (mem_symPairs_iff.mpr ⟨hj, hi, h⟩)).symm

/-- A symmetric window has zero Frobenius distance to its transpose. -/
theorem frobSqDiff_eq_zero_of_symm {n : Nat} {A : Mat}
    (h : ∀ i j, i < n → j < n → A i j = A j i) : frobSqDiff n A = 0 := by
  unfold frobSqDiff
  refine List.sum_eq_zero (fun x hx => ?_)
  rcases List.mem_map.mp hx with ⟨i, hi, rfl⟩
  refine List.sum_eq_zero (fun y hy => ?_)
  rcases List.mem_map.mp hy with ⟨j, hj, rfl⟩
  rw [h i j (List.mem_range.mp hi) (List.mem_range.mp hj)]
  ring

end Amdados

/-!
## Linear solvers

Modelled from the spec: the headers `lu.h` and `cholesky.h` are not among the
source files (only their callers and the spec describe them).  Spec 4.1: the
LU solver computes an LU factorization with partial pivoting and solves
`A·X = B` by forward/back substitution, failing with `SingularOperator` when
the pivot magnitude underflows; the Cholesky solver factors a symmetric
positive-definite `S` and returns `S⁻¹·B`, failing (`FilterIllConditioned`)
when the factorization breaks down.  Over exact rationals we realize the LU
contract by Gaussian elimination with partial (max-magnitude) pivoting that
fails exactly when the pivot is zero, and the Cholesky contract by the
square-root-free variant (elimination without pivoting failing on a pivot
`≤ 0`), which over exact arithmetic succeeds precisely on positive-definite
matrices and returns the exact solution.  Matrices are materialized as lists
of rows so that evaluation is effective.
-/

namespace Lin

abbrev RMat := List (List ℚ)

def toR (n m : Nat) (A : Amdados.Mat) : RMat :=
  (List.range n).map (fun i => (List.range m).map (fun j => A i j))

def ofR (L : RMat) : Amdados.Mat := fun i j => (L.getD i []).getD j 0

def entry (L : RMat) (i j : Nat) : ℚ := (L.getD i []).getD j 0

/-- Swap rows `i` and `j`. -/
def rswap (L : RMat) (i j : Nat) : RMat :=
  let ri := L.getD i []
  let rj := L.getD j []
  (L.set i rj).set j ri

/-- Index (in `[k, n)`) of a row with maximal `|A r k|`; partial pivoting. -/
def findPivot (A : RMat) (k n : Nat) : Nat :=
  ((List.range n).drop k).foldl
    (fun best r => if |entry A best k| < |entry A r k| then r else best) k

/-- Row operation `row - f * pivotRow` used by the elimination. -/
def rowAxpy (row : List ℚ) (f : ℚ) (prow : List ℚ) : List ℚ :=
  List.zipWith (fun a p => a - f * p) row prow

/-- One step of Gaussian elimination with partial pivoting on the pair
`(A, B)`; fails when the chosen pivot is exactly zero (the exact-arithmetic
rendering of `SingularOperator` pivot underflow). -/
def luStep (n : Nat) (AB : RMat × RMat) (k : Nat) : Option (RMat × RMat) :=
  let r := findPivot AB.1 k n
  let p := entry AB.1 r k
  if p = 0 then none
  else
    let A := rswap AB.1 k r
    let B := rswap AB.2 k r
    let prow := A.getD k []
    let brow := B.getD k []
    let A2 := A.mapIdx (fun i row =>
      if k < i ∧ i < n then rowAxpy row (row.getD k 0 / p) prow else row)
    let B2 := (A.zip B).mapIdx (fun i rp =>
      if k < i ∧ i < n then rowAxpy rp.2 (rp.1.getD k 0 / p) brow else rp.2)
    some (A2, B2)

/-- One step of elimination without pivoting, failing on a pivot `≤ 0`; the
square-root-free rendering of the Cholesky factorization of an SPD matrix. -/
def cholStep (n : Nat) (AB : RMat × RMat) (k : Nat) : Option (RMat × RMat) :=
  let p := entry AB.1 k k
  if p ≤ 0 then none
  else
    let prow := AB.1.getD k []
    let brow := AB.2.getD k []
    let A2 := AB.1.mapIdx (fun i row =>
      if k < i ∧ i < n then rowAxpy row (row.getD k 0 / p) prow else row)
    let B2 := (AB.1.zip AB.2).mapIdx (fun i rp =>
      if k < i ∧ i < n then rowAxpy rp.2 (rp.1.getD k 0 / p) brow else rp.2)
    some (A2, B2)

def forwardElim (step : Nat → RMat × RMat → Nat → Option (RMat × RMat))
    (n : Nat) (A B : RMat) : Option (RMat × RMat) :=
  (List.range n).foldlM (step n) (A, B)

/-- Back substitution on an upper-triangular `U`: returns `X` (`n × m` rows,
built bottom-up) with `U·X = C`. -/
def backSub (n m : Nat) (U C : RMat) : RMat :=
  (List.range n).foldr
    (fun i acc =>
      let urow := U.getD i []
      let crow := C.getD i []
      let xrow := (List.range m).map (fun c =>
        (crow.getD c 0 -
          ((List.range (n - (i + 1))).map
            (fun t => urow.getD (i + 1 + t) 0 * (acc.getD t []).getD c 0)).sum)
        / urow.getD i 0)
      xrow :: acc) []

/-- Solve `A·X = B` (`A` of order `n`, `B` with `m` columns) by LU with
partial pivoting. -/
def luSolveR (n m : Nat) (A B : RMat) : Option RMat :=
  (forwardElim luStep n A B).map (fun UC => backSub n m UC.1 UC.2)

/-- Solve `S·X = B` for a symmetric positive-definite `S`; the model of the
Cholesky solver. -/
def cholSolveR (n m : Nat) (S B : RMat) : Option RMat :=
  (forwardElim cholStep n S B).map (fun UC => backSub n m UC.1 UC.2)

end Lin

namespace Amdados

/-- LU batch solve on function-matrices: `X = A⁻¹·B`, `A` of order `n`,
`B` of size `n × m` (spec 4.1, `LU::BatchSolve`). -/
def luSolveMat (n m : Nat) (A B : Mat) : Option Mat :=
  (Lin.luSolveR n m (Lin.toR n n A) (Lin.toR n m B)).map Lin.ofR

/-- LU solve with a single right-hand side (spec 4.1, `LU::Solve`). -/
def luSolveVec (n : Nat) (A : Mat) (b : Vec) : Option Vec :=
  (luSolveMat n 1 A (fun i _ => b i)).map (fun X i => X i 0)

/-- Cholesky batch solve on function-matrices: `X = S⁻¹·B` (spec 4.1,
`Cholesky::BatchSolve`). -/
def cholSolveMat (n m : Nat) (S B : Mat) : Option Mat :=
  (Lin.cholSolveR n m (Lin.toR n n S) (Lin.toR n m B)).map Lin.ofR

/-- Cholesky solve with one right-hand side (spec 4.1, `Cholesky::Solve`). -/
def cholSolveVec (n : Nat) (S : Mat) (b : Vec) : Option Vec :=
  (cholSolveMat n 1 S (fun i _ => b i)).map (fun X i => X i 0)

/-!
## Kalman filter (src/code/app/include/amdados/app/utils/kalman_filter.h)

`PropagateStateInverse` (lines 128-144) and `SolveFilter` (lines 155-199),
embedded step for step.  The state dimension is `n`, the observation
dimension `m`.  `BatchSolveTr(X, C)` computes `X = B⁻¹·Cᵀ` (the code comment:
`P_prior = B^{-1} * (B^{-1} * P)^t = A * P * A^t`).
-/

/-- Embedding of `KalmanFilter::PropagateStateInverse`:
`x ← B⁻¹x`; `P ← B⁻¹(B⁻¹P)ᵀ + Q`; `Symmetrize(P)`. -/
def PropagateStateInverse (n : Nat) (x : Vec) (P B Q : Mat) :
    Option (Vec × Mat) :=
  match luSolveVec n B x with
  | none => none
  | some x' =>
    match luSolveMat n n B P with
    | none => none
    | some Ptmp =>
      match luSolveMat n n B (fun r c => Ptmp c r) with
      | none => none
      | some Pp => some (x', Symmetrize n (fun r c => Pp r c + Q r c))

/-- Embedding of `KalmanFilter::SolveFilter`:
`y = z - H·x`; `S = H·P·Hᵀ + R` symmetrized; Cholesky solves give
`x ← x + P·Hᵀ·S⁻¹·y` and `P ← P - P·Hᵀ·S⁻¹·H·P` symmetrized. -/
def SolveFilter (n m : Nat) (x : Vec) (P H R : Mat) (z : Vec) :
    Option (Vec × Mat) :=
  let y : Vec := fun i => z i - dotRange n (fun k => H i k * x k)
  let PHt : Mat := fun r c => dotRange n (fun k => P r k * H c k)
  let S : Mat := Symmetrize m (fun r c =>
    dotRange n (fun k => H r k * PHt k c) + R r c)
  match cholSolveVec m S y with
  | none => none
  | some invSy =>
    let x' : Vec := fun i => dotRange m (fun k => PHt i k * invSy k) + x i
    let HP : Mat := fun r c => PHt c r
    match cholSolveMat m n S HP with
    | none => none
    | some invSHP =>
      some (x', Symmetrize n (fun r c =>
        P r c - dotRange m (fun k => PHt r k * invSHP k c)))

lemma symmetrize_post (n : Nat) (A : Mat) :
    (∀ i j, i < n → j < n → Symmetrize n A i j = Symmetrize n A j i) ∧
      frobSqDiff n (Symmetrize n A) = 0 :=
  ⟨fun _ _ hi hj => Symmetrize_symm n A hi hj,
   frobSqDiff_eq_zero_of_symm (fun _ _ hi hj => Symmetrize_symm n A hi hj)⟩

/-- C8.  After every call of `PropagateStateInverse` and after every call of
`SolveFilter`, the covariance matrix `P` is symmetric (`P(i,j) = P(j,i)` for
all indices inside the `n × n` window), hence the Frobenius norm of `P - Pᵀ`
is zero, so `|P - Pᵀ|_F / |P|_F ≤ 1e-10`: both routines end by calling
`Symmetrize`, which assigns the same averaged value to `P(i,j)` and `P(j,i)`. -/
theorem claim_C8_covariance_symmetric :
    (∀ (n : Nat) (x : Vec) (P B Q : Mat) (x' : Vec) (P' : Mat),
        PropagateStateInverse n x P B Q = some (x', P') →
        (∀ i j, i < n → j < n → P' i j = P' j i) ∧ frobSqDiff n P' = 0) ∧
    (∀ (n m : Nat) (x : Vec) (P H R : Mat) (z : Vec) (x' : Vec) (P' : Mat),
        SolveFilter n m x P H R z = some (x', P') →
        (∀ i j, i < n → j < n → P' i j = P' j i) ∧ frobSqDiff n P' = 0) := by
  constructor
  · intro n x P B Q x' P' h
    unfold PropagateStateInverse at h
    split at h
    · exact absurd h (by simp)
    · split at h
      · exact absurd h (by simp)
      · split at h
        · exact absurd h (by simp)
        · rcases Option.some.inj h with h'
          rcases Prod.mk.injEq .. ▸ h' with ⟨-, hP⟩
          rw [← hP]
          exact symmetrize_post n _
  · intro n m x P H R z x' P' h
    unfold SolveFilter at h
    simp only at h
    split at h
    · exact absurd h (by simp)
    · split at h
      · exact absurd h (by simp)
      · rcases Option.some.inj h with h'
        rcases Prod.mk.injEq .. ▸ h' with ⟨-, hP⟩
        rw [← hP]
        exact symmetrize_post n _

/-- Concrete data for the C8 witness: a 2-state, 1-observation filter with an
asymmetric input covariance. -/
def wMatB : Mat := fun i j => if i = j then 1 else 0

def wMatP : Mat := fun i j => if i = 0 ∧ j = 1 then 3 else 0

def wVecX : Vec := fun _ => 1

def wMatQ : Mat := fun _ _ => 0

def wMatH : Mat := fun _ c => if c = 0 then 1 else 0

def wMatR : Mat := fun _ _ => 1

def wVecZ : Vec := fun _ => 0

theorem claim_C8_witness :
    (∃ r, PropagateStateInverse 2 wVecX wMatP wMatB wMatQ = some r ∧
      (∀ i j, i < 2 → j < 2 → r.2 i j = r.2 j i) ∧ frobSqDiff 2 r.2 = 0) ∧
    (∃ r, SolveFilter 2 1 wVecX wMatP wMatH wMatR wVecZ = some r ∧
      (∀ i j, i < 2 → j < 2 → r.2 i j = r.2 j i) ∧ frobSqDiff 2 r.2 = 0) := by
  constructor
  · have hs : (PropagateStateInverse 2 wVecX wMatP wMatB wMatQ).isSome = true := by
      with_unfolding_all decide
    rcases Option.isSome_iff_exists.mp hs with ⟨r, hr⟩
    have hr' : PropagateStateInverse 2 wVecX wMatP wMatB wMatQ = some (r.1, r.2) := by
      rw [Prod.mk.eta]; exact hr
    exact ⟨r, hr, claim_C8_covariance_symmetric.1 2 wVecX wMatP wMatB wMatQ r.1 r.2 hr'⟩
  · have hs : (SolveFilter 2 1 wVecX wMatP wMatH wMatR wVecZ).isSome = true := by
      with_unfolding_all decide
    rcases Option.isSome_iff_exists.mp hs with ⟨r, hr⟩
    have hr' : SolveFilter 2 1 wVecX wMatP wMatH wMatR wVecZ = some (r.1, r.2) := by
      rw [Prod.mk.eta]; exact hr
    exact ⟨r, hr, claim_C8_covariance_symmetric.2 2 1 wVecX wMatP wMatH wMatR wVecZ r.1 r.2 hr'⟩

/-!
## Inverse model matrix (src/unnamed/part_003, lines 349-385)

`sub2ind(x, y, layer_size) = x * (layer_size.y + 2) + y` (lines 110-118) and
`InverseModelMatrix(B, conf, flow, layer_size, dt_divisor)`.  The C++ routine
first makes `B` the identity and then, for every interior point
`1 ≤ x ≤ Sx`, `1 ≤ y ≤ Sy`, overwrites the five stencil entries of row
`sub2ind(x, y)`.  Each loop iteration touches exactly one row (its own) and
the five written columns are pairwise distinct, so the loop is embedded as a
function of the row and column index.
-/

/-- Flat index into the extended subdomain, `y` faster than `x`. -/
def sub2ind (x y sy : Nat) : Nat := x * (sy + 2) + y

/-- Effective time step `conf.dt / ((dt_divisor > 0) ? dt_divisor : 1)`. -/
def effDt (dt : ℚ) (dt_divisor : Nat) : ℚ :=
  dt / (if 0 < dt_divisor then (dt_divisor : ℚ) else 1)

/-- Embedding of `InverseModelMatrix`. -/
def InverseModelMatrix (D dt dx dy : ℚ) (flw : ℚ × ℚ) (sx sy : Nat)
    (dt_divisor : Nat) : Mat :=
  let dte := effDt dt dt_divisor
  let rho_x := D * dte / dx ^ 2
  let rho_y := D * dte / dy ^ 2
  let v0x := 2 * dx / dte
  let v0y := 2 * dy / dte
  let vx := flw.1 / v0x
  let vy := flw.2 / v0y
  fun i j =>
    let x := i / (sy + 2)
    let y := i % (sy + 2)
    if 1 ≤ x ∧ x ≤ sx ∧ 1 ≤ y ∧ y ≤ sy then
      if j = sub2ind x y sy then 1 + 2 * (rho_x + rho_y)
      else if j = sub2ind (x - 1) y sy then -vx - rho_x
      else if j = sub2ind (x + 1) y sy then vx - rho_x
      else if j = sub2ind x (y - 1) sy then -vy - rho_y
      else if j = sub2ind x (y + 1) sy then vy - rho_y
      else 0
    else if i = j then 1 else 0

lemma sub2ind_div {y sy : Nat} (x : Nat) (hy : y < sy + 2) :
    sub2ind x y sy / (sy + 2) = x := by
  unfold sub2ind
  rw [Nat.add_comm, Nat.mul_comm, Nat.add_mul_div_left _ _ (by omega),
    Nat.div_eq_of_lt hy, Nat.zero_add]

lemma sub2ind_mod {y sy : Nat} (x : Nat) (hy : y < sy + 2) :
    sub2ind x y sy % (sy + 2) = y := by
  unfold sub2ind
  rw [Nat.add_comm, Nat.mul_comm, Nat.add_mul_mod_self_left,
    Nat.mod_eq_of_lt hy]

lemma sub2ind_inj {x1 y1 x2 y2 sy : Nat} (h1 : y1 < sy + 2)
    (h2 : y2 < sy + 2) (h : sub2ind x1 y1 sy = sub2ind x2 y2 sy) :
    x1 = x2 ∧ y1 = y2 := by
  have hx : x1 = x2 := by
    have := congrArg (fun t => t / (sy + 2)) h
    simpa [sub2ind_div _ h1, sub2ind_div _ h2] using this
  have hy : y1 = y2 := by
    have := congrArg (fun t => t % (sy + 2)) h
    simpa [sub2ind_mod _ h1, sub2ind_mod _ h2] using this
  exact ⟨hx, hy⟩

lemma sub2ind_lt {x y sx sy : Nat} (hx : x ≤ sx + 1) (hy : y < sy + 2) :
    sub2ind x y sy < (sx + 2) * (sy + 2) := by
  unfold sub2ind
  have : x * (sy + 2) ≤ (sx + 1) * (sy + 2) := Nat.mul_le_mul_right _ hx
  nlinarith

lemma sub2ind_ne_of_ne {x1 y1 x2 y2 sy : Nat} (h1 : y1 < sy + 2)
    (h2 : y2 < sy + 2) (h : ¬(x1 = x2 ∧ y1 = y2)) :
    sub2ind x1 y1 sy ≠ sub2ind x2 y2 sy :=
  fun hc => h (sub2ind_inj h1 h2 hc)

/-- `dt_divisor = Nschwarz > 0` makes `InverseModelMatrix` the matrix built
with time step `dt / Nschwarz` and no divisor; used by the no-sensor
branch. -/
lemma InverseModelMatrix_div (D dt dx dy : ℚ) (flw : ℚ × ℚ) (sx sy k : Nat)
    (hk : 0 < k) :
    InverseModelMatrix D dt dx dy flw sx sy k =
      InverseModelMatrix D (dt / (k : ℚ)) dx dy flw sx sy 0 := by
  unfold InverseModelMatrix effDt
  rw [if_pos hk, if_neg (lt_irrefl 0), div_one]

/-- C1.  `InverseModelMatrix` produces, for layer size `(Sx, Sy)` and
effective time step `dte = dt / max(dt_divisor, 1)`, a matrix on the order
`(Sx+2)(Sy+2)` index range that is the identity on every halo row (rows whose
point has `x = 0`, `x = Sx+1`, `y = 0` or `y = Sy+1`), and for every interior
point `(x, y)` with `1 ≤ x ≤ Sx`, `1 ≤ y ≤ Sy` carries the five-point stencil
`B[i,i] = 1 + 2(ρx + ρy)`, `B[i,(x∓1,y)] = ∓αx - ρx`,
`B[i,(x,y∓1)] = ∓αy - ρy` with `ρ = D·dte/d²`, `α = v·dte/(2d)`, every other
entry of the row being zero. -/
theorem claim_C1_inverse_model_matrix
    (D dt dx dy fx fy : ℚ) (Sx Sy d : Nat) :
    (∀ x y, 1 ≤ x → x ≤ Sx → 1 ≤ y → y ≤ Sy →
      (InverseModelMatrix D dt dx dy (fx, fy) Sx Sy d
          (sub2ind x y Sy) (sub2ind x y Sy) =
        1 + 2 * (D * effDt dt d / dx ^ 2 + D * effDt dt d / dy ^ 2)) ∧
      (InverseModelMatrix D dt dx dy (fx, fy) Sx Sy d
          (sub2ind x y Sy) (sub2ind (x - 1) y Sy) =
        -(fx * effDt dt d / (2 * dx)) - D * effDt dt d / dx ^ 2) ∧
      (InverseModelMatrix D dt dx dy (fx, fy) Sx Sy d
          (sub2ind x y Sy) (sub2ind (x + 1) y Sy) =
        fx * effDt dt d / (2 * dx) - D * effDt dt d / dx ^ 2) ∧
      (InverseModelMatrix D dt dx dy (fx, fy) Sx Sy d
          (sub2ind x y Sy) (sub2ind x (y - 1) Sy) =
        -(fy * effDt dt d / (2 * dy)) - D * effDt dt d / dy ^ 2) ∧
      (InverseModelMatrix D dt dx dy (fx, fy) Sx Sy d
          (sub2ind x y Sy) (sub2ind x (y + 1) Sy) =
        fy * effDt dt d / (2 * dy) - D * effDt dt d / dy ^ 2) ∧
      (∀ j, j < (Sx + 2) * (Sy + 2) →
        j ≠ sub2ind x y Sy → j ≠ sub2ind (x - 1) y Sy →
        j ≠ sub2ind (x + 1) y Sy → j ≠ sub2ind x (y - 1) Sy →
        j ≠ sub2ind x (y + 1) Sy →
        InverseModelMatrix D dt dx dy (fx, fy) Sx Sy d (sub2ind x y Sy) j = 0)) ∧
    (∀ x y, x ≤ Sx + 1 → y ≤ Sy + 1 →
      (x = 0 ∨ x = Sx + 1 ∨ y = 0 ∨ y = Sy + 1) →
      ∀ j, InverseModelMatrix D dt dx dy (fx, fy) Sx Sy d (sub2ind x y Sy) j =
        if sub2ind x y Sy = j then 1 else 0) := by
  have hrow : ∀ x y, 1 ≤ x → x ≤ Sx → 1 ≤ y → y ≤ Sy → ∀ j,
      InverseModelMatrix D dt dx dy (fx, fy) Sx Sy d (sub2ind x y Sy) j =
        (if j = sub2ind x y Sy then
          1 + 2 * (D * effDt dt d / dx ^ 2 + D * effDt dt d / dy ^ 2)
        else if j = sub2ind (x - 1) y Sy then
          -(fx * effDt dt d / (2 * dx)) - D * effDt dt d / dx ^ 2
        else if j = sub2ind (x + 1) y Sy then
          fx * effDt dt d / (2 * dx) - D * effDt dt d / dx ^ 2
        else if j = sub2ind x (y - 1) Sy then
          -(fy * effDt dt d / (2 * dy)) - D * effDt dt d / dy ^ 2
        else if j = sub2ind x (y + 1) Sy then
          fy * effDt dt d / (2 * dy) - D * effDt dt d / dy ^ 2
        else 0) := by
    intro x y hx1 hx2 hy1 hy2 j
    have hdec : sub2ind x y Sy / (Sy + 2) = x := sub2ind_div x (by omega)
    have hmod : sub2ind x y Sy % (Sy + 2) = y := sub2ind_mod x (by omega)
    show (fun i j => _ : Mat) (sub2ind x y Sy) j = _
    simp only [InverseModelMatrix]
    rw [hdec, hmod, if_pos ⟨hx1, hx2, hy1, hy2⟩,
      div_div_eq_mul_div fx (2 * dx) (effDt dt d),
      div_div_eq_mul_div fy (2 * dy) (effDt dt d)]
  constructor
  · intro x y hx1 hx2 hy1 hy2
    refine ⟨?_, ?_, ?_, ?_, ?_, ?_⟩
    · rw [hrow x y hx1 hx2 hy1 hy2, if_pos rfl]
    · rw [hrow x y hx1 hx2 hy1 hy2,
        if_neg (sub2ind_ne_of_ne (by omega) (by omega) (by omega)),
        if_pos rfl]
    · rw [hrow x y hx1 hx2 hy1 hy2,
        if_neg (sub2ind_ne_of_ne (by omega) (by omega) (by omega)),
        if_neg (sub2ind_ne_of_ne (by omega) (by omega) (by omega)),
        if_pos rfl]
    · rw [hrow x y hx1 hx2 hy1 hy2,
        if_neg (sub2ind_ne_of_ne (by omega) (by omega) (by omega)),
        if_neg (sub2ind_ne_of_ne (by omega) (by omega) (by omega)),
        if_neg (sub2ind_ne_of_ne (by omega) (by omega) (by omega)),
        if_pos rfl]
    · rw [hrow x y hx1 hx2 hy1 hy2,
        if_neg (sub2ind_ne_of_ne (by omega) (by omega) (by omega)),
        if_neg (sub2ind_ne_of_ne (by omega) (by omega) (by omega)),
        if_neg (sub2ind_ne_of_ne (by omega) (by omega) (by omega)),
        if_neg (sub2ind_ne_of_ne (by omega) (by omega) (by omega)),
        if_pos rfl]
    · intro j hj hj1 hj2 hj3 hj4 hj5
      rw [hrow x y hx1 hx2 hy1 hy2, if_neg hj1, if_neg hj2, if_neg hj3,
        if_neg hj4, if_neg hj5]
  · intro x y hx hy hhalo j
    have hdec : sub2ind x y Sy / (Sy + 2) = x := sub2ind_div x (by omega)
    have hmod : sub2ind x y Sy % (Sy + 2) = y := sub2ind_mod x (by omega)
    show (fun i j => _ : Mat) (sub2ind x y Sy) j = _
    simp only [InverseModelMatrix]
    rw [hdec, hmod, if_neg (by omega)]

/-- Witness for C1 at a concrete instance: a 3×3 layer with all coefficients
set to simple rationals, evaluated at the interior point `(2, 1)` and at a
halo row. -/
theorem claim_C1_witness :
    (1 ≤ 2 ∧ 2 ≤ 3 ∧ 1 ≤ 1 ∧ 1 ≤ 3) ∧
    InverseModelMatrix 1 1 1 1 ((3 : ℚ), (5 : ℚ)) 3 3 0
      (sub2ind 2 1 3) (sub2ind 1 1 3) = -(3 * 1 / 2) - 1 ∧
    InverseModelMatrix 1 1 1 1 ((3 : ℚ), (5 : ℚ)) 3 3 0
      (sub2ind 2 1 3) (sub2ind 2 1 3) = 1 + 2 * (1 + 1) ∧
    InverseModelMatrix 1 1 1 1 ((3 : ℚ), (5 : ℚ)) 3 3 0 (sub2ind 0 2 3) 7 =
      if sub2ind 0 2 3 = 7 then 1 else 0 := by
  have h := claim_C1_inverse_model_matrix 1 1 1 1 3 5 3 3 0
  have h1 := h.1 2 1 (by decide) (by decide) (by decide) (by decide)
  have h2 := h.2 0 2 (by decide) (by decide) (Or.inl rfl) 7
  refine ⟨by decide, ?_, ?_, h2⟩
  · have := h1.2.1
    rw [this]
    with_unfolding_all decide
  · have := h1.1
    rw [this]
    with_unfolding_all decide

/-!
## Subdomain cells and the grid

Modelled from the spec: the two-layer adaptive-grid cell (`subdomain_t`,
provided by the external AllScale API `adaptive_grid.h`) per spec 4.5: an
active layer tag in `{Fine, Low}`, one value array per layer, border-strip
accessors keyed by side (`getBoundary` / `setBoundary`, strip length `Sx` at
`Up` / `Down` and `Sy` at `Left` / `Right`), `forAllActiveNodes` over the
active layer, and `refine` / `coarsen` populating the opposite layer by
duplication / averaging through a caller-supplied mapping.  Layer sizes are
global constants collected in `Geom`.
-/

inductive Layer where
  | Fine : Layer
  | Low : Layer
deriving DecidableEq

inductive Direction where
  | Up : Direction
  | Down : Direction
  | Left : Direction
  | Right : Direction
deriving DecidableEq

/-- Global geometry: lattice size in subdomains and the per-layer cell
sizes. -/
structure Geom where
  Nx : Nat
  Ny : Nat
  fineX : Nat
  fineY : Nat
  lowX : Nat
  lowY : Nat

def Geom.sizeAt (g : Geom) : Layer → Nat × Nat
  | Layer.Fine => (g.fineX, g.fineY)
  | Layer.Low => (g.lowX, g.lowY)

/-- A two-layer subdomain cell. -/
structure Subdomain where
  fineData : Mat
  lowData : Mat
  active : Layer

abbrev Domain := Nat → Nat → Subdomain

def layerData (s : Subdomain) : Layer → Mat
  | Layer.Fine => s.fineData
  | Layer.Low => s.lowData

def setLayerData (s : Subdomain) (l : Layer) (M : Mat) : Subdomain :=
  match l with
  | Layer.Fine => { s with fineData := M }
  | Layer.Low => { s with lowData := M }

def setActiveLayer (s : Subdomain) (l : Layer) : Subdomain :=
  { s with active := l }

/-- Value array of the active layer. -/
def activeData (s : Subdomain) : Mat := layerData s s.active

/-- Modelled from the spec: border strip of a given layer, read through the
raw accessor `data.getBoundary(layer_no, dir)`; entry `k` of the strip. -/
def getBoundaryAt (g : Geom) (s : Subdomain) (l : Layer) :
    Direction → Nat → ℚ
  | Direction.Left => fun k => layerData s l 0 k
  | Direction.Right => fun k => layerData s l ((g.sizeAt l).1 - 1) k
  | Direction.Down => fun k => layerData s l k 0
  | Direction.Up => fun k => layerData s l k ((g.sizeAt l).2 - 1)

/-- Modelled from the spec: `setBoundary(dir, values)` writes the strip of
the active layer. -/
def setBoundary (g : Geom) (s : Subdomain) (dir : Direction)
    (vals : Nat → ℚ) : Subdomain :=
  let sx := (g.sizeAt s.active).1
  let sy := (g.sizeAt s.active).2
  let M := activeData s
  let M' : Mat :=
    match dir with
    | Direction.Left => fun p q => if p = 0 ∧ q < sy then vals q else M p q
    | Direction.Right => fun p q => if p = sx - 1 ∧ q < sy then vals q else M p q
    | Direction.Down => fun p q => if q = 0 ∧ p < sx then vals p else M p q
    | Direction.Up => fun p q => if q = sy - 1 ∧ p < sx then vals p else M p q
  setLayerData s s.active M'

/-- Modelled from the spec: `coarsen(f)` refreshes the `Low` layer from the
`Fine` one by averaging the four children through `f`. -/
def coarsenSub (g : Geom) (f : ℚ → ℚ) (s : Subdomain) : Subdomain :=
  { s with lowData := fun i j =>
      if i < g.lowX ∧ j < g.lowY then
        (f (s.fineData (2 * i) (2 * j)) + f (s.fineData (2 * i + 1) (2 * j)) +
         f (s.fineData (2 * i) (2 * j + 1)) +
         f (s.fineData (2 * i + 1) (2 * j + 1))) / 4
      else s.lowData i j }

/-- Modelled from the spec: `refine(f)` refreshes the `Fine` layer from the
`Low` one by duplication through `f`. -/
def refineSub (g : Geom) (f : ℚ → ℚ) (s : Subdomain) : Subdomain :=
  { s with fineData := fun i j =>
      if i < g.fineX ∧ j < g.fineY then f (s.lowData (i / 2) (j / 2))
      else s.fineData i j }

/-- The non-negativity clamp
`forAllActiveNodes([](double & v){ if (v < 0.0) v = 0.0; })` applied by both
subdomain routines (src/unnamed/part_003, lines 547 and 620). -/
def clampSub (g : Geom) (s : Subdomain) : Subdomain :=
  setLayerData s s.active (fun p q =>
    if p < (g.sizeAt s.active).1 ∧ q < (g.sizeAt s.active).2 ∧
        activeData s p q < 0 then 0
    else activeData s p q)

/-!
## ApplyBoundaryCondition (src/unnamed/part_003, lines 215-230)

Zero Dirichlet condition on the outer border: for a subdomain at lattice
position `(ix, iy)` the routine writes a zero strip on each side that lies on
the outer face of the `Nx × Ny` lattice.
-/

def ApplyBoundaryCondition (g : Geom) (ix iy : Nat) (s : Subdomain) :
    Subdomain :=
  let s1 := if ix = 0 then setBoundary g s Direction.Left (fun _ => 0) else s
  let s2 := if ix = g.Nx - 1 then setBoundary g s1 Direction.Right (fun _ => 0)
    else s1
  let s3 := if iy = 0 then setBoundary g s2 Direction.Down (fun _ => 0) else s2
  if iy = g.Ny - 1 then setBoundary g s3 Direction.Up (fun _ => 0) else s3

/-!
## MatrixFromAllscale (src/unnamed/part_003, lines 390-451)

Assembly of the extended `(Sx+2) × (Sy+2)` working matrix: interior from the
subdomain's active layer, corners zeroed, then the four halo strips.  A halo
strip comes from the facing border of the neighbour (read at this subdomain's
active layer number) when the neighbour exists, and otherwise — on the outer
boundary — from mirroring the second interior row/column of the extended
matrix itself (`field(0,y+1) = field(2,y+1)` and its three analogues).  The
six write phases of the C++ routine are staged (`mfa1` … `mfa6`); within one
phase the written cells and the read cells are disjoint, so each phase is a
pointwise function of the previous stage.  `prev` is the prior content of
`ctx.field` (cells outside the extended window are never written). -/
def mfa1 (V prev : Mat) (sx sy : Nat) : Mat := fun r c =>
  if 1 ≤ r ∧ r ≤ sx ∧ 1 ≤ c ∧ c ≤ sy then V (r - 1) (c - 1) else prev r c

/-- Corner zeroing phase. -/
def mfa2 (M : Mat) (sx sy : Nat) : Mat := fun r c =>
  if (r = 0 ∨ r = sx + 1) ∧ (c = 0 ∨ c = sy + 1) then 0 else M r c

/-- Left-halo phase: neighbour strip if the left peer exists, else the mirror
`field(2, c)`. -/
def mfa3 (M : Mat) (sx sy : Nat) (useNbr : Bool) (nbr : Nat → ℚ) : Mat :=
  fun r c =>
    if r = 0 ∧ 1 ≤ c ∧ c ≤ sy then
      (if useNbr then nbr (c - 1) else M 2 c)
    else M r c

/-- Right-halo phase: neighbour strip or the mirror `field(sx-1, c)`. -/
def mfa4 (M : Mat) (sx sy : Nat) (useNbr : Bool) (nbr : Nat → ℚ) : Mat :=
  fun r c =>
    if r = sx + 1 ∧ 1 ≤ c ∧ c ≤ sy then
      (if useNbr then nbr (c - 1) else M (sx - 1) c)
    else M r c

/-- Bottom-halo phase: neighbour strip or the mirror `field(r, 2)`. -/
def mfa5 (M : Mat) (sx sy : Nat) (useNbr : Bool) (nbr : Nat → ℚ) : Mat :=
  fun r c =>
    if c = 0 ∧ 1 ≤ r ∧ r ≤ sx then
      (if useNbr then nbr (r - 1) else M r 2)
    else M r c

/-- Top-halo phase: neighbour strip or the mirror `field(r, sy-1)`. -/
def mfa6 (M : Mat) (sx sy : Nat) (useNbr : Bool) (nbr : Nat → ℚ) : Mat :=
  fun r c =>
    if c = sy + 1 ∧ 1 ≤ r ∧ r ≤ sx then
      (if useNbr then nbr (r - 1) else M r (sy - 1))
    else M r c

def MatrixFromAllscale (g : Geom) (prev : Mat) (dom : Domain) (ix iy : Nat) :
    Mat :=
  let layer := (dom ix iy).active
  let sx := (g.sizeAt layer).1
  let sy := (g.sizeAt layer).2
  mfa6 (mfa5 (mfa4 (mfa3 (mfa2 (mfa1 (layerData (dom ix iy) layer) prev sx sy)
            sx sy)
          sx sy (decide (0 < ix))
          (getBoundaryAt g (dom (ix - 1) iy) layer Direction.Right))
        sx sy (decide (ix + 1 < g.Nx))
        (getBoundaryAt g (dom (ix + 1) iy) layer Direction.Left))
      sx sy (decide (0 < iy))
      (getBoundaryAt g (dom ix (iy - 1)) layer Direction.Up))
    sx sy (decide (iy + 1 < g.Ny))
    (getBoundaryAt g (dom ix (iy + 1)) layer Direction.Down)

lemma mfa1_hit {V prev : Mat} {sx sy r c : Nat}
    (h : 1 ≤ r ∧ r ≤ sx ∧ 1 ≤ c ∧ c ≤ sy) :
    mfa1 V prev sx sy r c = V (r - 1) (c - 1) := if_pos h

lemma mfa2_miss {M : Mat} {sx sy r c : Nat}
    (h : ¬((r = 0 ∨ r = sx + 1) ∧ (c = 0 ∨ c = sy + 1))) :
    mfa2 M sx sy r c = M r c := if_neg h

lemma mfa3_miss {M : Mat} {sx sy : Nat} {u : Bool} {nbr : Nat → ℚ} {r c : Nat}
    (h : ¬(r = 0 ∧ 1 ≤ c ∧ c ≤ sy)) : mfa3 M sx sy u nbr r c = M r c :=
  if_neg h

lemma mfa3_nbr {M : Mat} {sx sy : Nat} {u : Bool} {nbr : Nat → ℚ} {r c : Nat}
    (h : r = 0 ∧ 1 ≤ c ∧ c ≤ sy) (hu : u = true) :
    mfa3 M sx sy u nbr r c = nbr (c - 1) := by simp [mfa3, h, hu]

lemma mfa3_mirror {M : Mat} {sx sy : Nat} {u : Bool} {nbr : Nat → ℚ} {r c : Nat}
    (h : r = 0 ∧ 1 ≤ c ∧ c ≤ sy) (hu : u = false) :
    mfa3 M sx sy u nbr r c = M 2 c := by simp [mfa3, h, hu]

lemma mfa4_miss {M : Mat} {sx sy : Nat} {u : Bool} {nbr : Nat → ℚ} {r c : Nat}
    (h : ¬(r = sx + 1 ∧ 1 ≤ c ∧ c ≤ sy)) : mfa4 M sx sy u nbr r c = M r c :=
  if_neg h

lemma mfa4_nbr {M : Mat} {sx sy : Nat} {u : Bool} {nbr : Nat → ℚ} {r c : Nat}
    (h : r = sx + 1 ∧ 1 ≤ c ∧ c ≤ sy) (hu : u = true) :
    mfa4 M sx sy u nbr r c = nbr (c - 1) := by simp [mfa4, h, hu]

lemma mfa4_mirror {M : Mat} {sx sy : Nat} {u : Bool} {nbr : Nat → ℚ} {r c : Nat}
    (h : r = sx + 1 ∧ 1 ≤ c ∧ c ≤ sy) (hu : u = false) :
    mfa4 M sx sy u nbr r c = M (sx - 1) c := by simp [mfa4, h, hu]

lemma mfa5_miss {M : Mat} {sx sy : Nat} {u : Bool} {nbr : Nat → ℚ} {r c : Nat}
    (h : ¬(c = 0 ∧ 1 ≤ r ∧ r ≤ sx)) : mfa5 M sx sy u nbr r c = M r c :=
  if_neg h

lemma mfa5_nbr {M : Mat} {sx sy : Nat} {u : Bool} {nbr : Nat → ℚ} {r c : Nat}
    (h : c = 0 ∧ 1 ≤ r ∧ r ≤ sx) (hu : u = true) :
    mfa5 M sx sy u nbr r c = nbr (r - 1) := by simp [mfa5, h, hu]

lemma mfa5_mirror {M : Mat} {sx sy : Nat} {u : Bool} {nbr : Nat → ℚ} {r c : Nat}
    (h : c = 0 ∧ 1 ≤ r ∧ r ≤ sx) (hu : u = false) :
    mfa5 M sx sy u nbr r c = M r 2 := by simp [mfa5, h, hu]

lemma mfa6_miss {M : Mat} {sx sy : Nat} {u : Bool} {nbr : Nat → ℚ} {r c : Nat}
    (h : ¬(c = sy + 1 ∧ 1 ≤ r ∧ r ≤ sx)) : mfa6 M sx sy u nbr r c = M r c :=
  if_neg h

lemma mfa6_nbr {M : Mat} {sx sy : Nat} {u : Bool} {nbr : Nat → ℚ} {r c : Nat}
    (h : c = sy + 1 ∧ 1 ≤ r ∧ r ≤ sx) (hu : u = true) :
    mfa6 M sx sy u nbr r c = nbr (r - 1) := by simp [mfa6, h, hu]

lemma mfa6_mirror {M : Mat} {sx sy : Nat} {u : Bool} {nbr : Nat → ℚ} {r c : Nat}
    (h : c = sy + 1 ∧ 1 ≤ r ∧ r ≤ sx) (hu : u = false) :
    mfa6 M sx sy u nbr r c = M r (sy - 1) := by simp [mfa6, h, hu]

/-- Writing the estimation back:
`AllscaleFromMatrix(cell, field)` (src/unnamed/part_003, lines 456-466). -/
def AllscaleFromMatrix (g : Geom) (s : Subdomain) (field : Mat) : Subdomain :=
  setLayerData s s.active (fun p q =>
    if p < (g.sizeAt s.active).1 ∧ q < (g.sizeAt s.active).2 then
      field (p + 1) (q + 1)
    else activeData s p q)

/-- Row-major flattening of the extended matrix, matching `sub2ind`. -/
def vecOfMat (sy : Nat) (A : Mat) : Vec := fun i => A (i / (sy + 2)) (i % (sy + 2))

/-- The inverse reshaping of a flat vector into the extended matrix. -/
def matOfVec (sy : Nat) (v : Vec) : Mat := fun r c => v (r * (sy + 2) + c)

/-- The constant `TINY = numeric_limits<double>::min() / pow(epsilon, 3)
= 2^-1022 / (2^-52)^3 = 2^-866`. -/
def TINY : ℚ := 1 / 2 ^ 866

/-!
## SchwarzUpdate (src/unnamed/part_002, lines 471-599)

Flow-aware halo synchronisation.  For each of the four sides, in source order
`Left, Right, Down, Up`: record whether the side is on the outer face; if it
is, `inflow[dir] = false` and nothing else happens.  Otherwise the outward
normal is dotted with the flux; the gradient contribution is compiled out
(`#if 0`), so the flux is exactly the flow vector.  On a strictly negative
dot product the side is marked as inflow and the neighbour's facing border
strip (read through `curr_domain[peer].getBoundary(peer_dir)`, the active
layer) is written onto this subdomain's strip in `next_domain`; otherwise
nothing is written.  The `AMDADOS_DEBUGGING` mismatch accumulation is
compiled out in a release build, so both sums stay zero and
`rel_diff = 0 / max(0, TINY)`.
-/

structure SchwarzBoundary where
  rel_diff : ℚ
  inflow : Direction → Bool
  outer : Direction → Bool

/-- Outward normal of a side, per the source:
`normal_x = (dir == Right) ? +1 : ((dir == Left) ? -1 : 0)` and
`normal_y = (dir == Up) ? +1 : ((dir == Down) ? -1 : 0)`. -/
def normalOf : Direction → Int × Int
  | Direction.Right => (1, 0)
  | Direction.Left => (-1, 0)
  | Direction.Up => (0, 1)
  | Direction.Down => (0, -1)

/-- Dot product of the outward normal with the flow. -/
def dotNF (d : Direction) (flw : ℚ × ℚ) : ℚ :=
  ((normalOf d).1 : ℚ) * flw.1 + ((normalOf d).2 : ℚ) * flw.2

/-- Side of the peer facing this subdomain (`remote_dir`). -/
def remoteDir : Direction → Direction
  | Direction.Left => Direction.Right
  | Direction.Right => Direction.Left
  | Direction.Down => Direction.Up
  | Direction.Up => Direction.Down

/-- Lattice index of the peer across a side (`remote_idx` increments). -/
def remoteIdx : Direction → Nat × Nat → Nat × Nat
  | Direction.Left, p => (p.1 - 1, p.2)
  | Direction.Right, p => (p.1 + 1, p.2)
  | Direction.Down, p => (p.1, p.2 - 1)
  | Direction.Up, p => (p.1, p.2 + 1)

def updFlag (f : Direction → Bool) (d : Direction) (v : Bool) :
    Direction → Bool :=
  fun d' => if d' = d then v else f d'

def updateGrid (dm : Domain) (ix iy : Nat) (s : Subdomain) : Domain :=
  fun p q => if p = ix ∧ q = iy then s else dm p q

/-- Whether a side of subdomain `(ix, iy)` lies on the outer lattice face,
as passed to `UpdBoundary` by `SchwarzUpdate`. -/
def outerB (g : Geom) (ix iy : Nat) : Direction → Bool
  | Direction.Left => decide (ix = 0)
  | Direction.Right => decide (ix = g.Nx - 1)
  | Direction.Down => decide (iy = 0)
  | Direction.Up => decide (iy = g.Ny - 1)

/-- One `UpdBoundary` lambda invocation of `SchwarzUpdate`. -/
def UpdBoundary (g : Geom) (curr : Domain) (flw : ℚ × ℚ) (ix iy : Nat)
    (dir : Direction) (is_outer : Bool) (st : SchwarzBoundary × Domain) :
    SchwarzBoundary × Domain :=
  let border := { st.1 with outer := updFlag st.1.outer dir is_outer,
                            inflow := updFlag st.1.inflow dir false }
  if is_outer then (border, st.2)
  else if dotNF dir flw < 0 then
    let pidx := remoteIdx dir (ix, iy)
    let peer := curr pidx.1 pidx.2
    let remote := getBoundaryAt g peer peer.active (remoteDir dir)
    ({ border with inflow := updFlag border.inflow dir true },
      updateGrid st.2 ix iy (setBoundary g (st.2 ix iy) dir remote))
  else (border, st.2)

/-- Embedding of `SchwarzUpdate`: the four `UpdBoundary` calls in source
order, then the rel-diff ratio of the (zero) accumulated sums. -/
def SchwarzUpdate (g : Geom) (b0 : SchwarzBoundary) (ix iy : Nat)
    (curr next : Domain) (flw : ℚ × ℚ) : SchwarzBoundary × Domain :=
  let s1 := UpdBoundary g curr flw ix iy Direction.Left (outerB g ix iy Direction.Left) (b0, next)
  let s2 := UpdBoundary g curr flw ix iy Direction.Right (outerB g ix iy Direction.Right) s1
  let s3 := UpdBoundary g curr flw ix iy Direction.Down (outerB g ix iy Direction.Down) s2
  let s4 := UpdBoundary g curr flw ix iy Direction.Up (outerB g ix iy Direction.Up) s3
  ({ s4.1 with rel_diff := 0 / max 0 TINY }, s4.2)

/-- The side `d` of subdomain `(ix, iy)` receives a copy: it is not outer and
the flow enters through it. -/
abbrev copies (g : Geom) (ix iy : Nat) (flw : ℚ × ℚ) (d : Direction) : Prop :=
  outerB g ix iy d = false ∧ dotNF d flw < 0

/-- Length of a border strip at a layer. -/
def stripLen (g : Geom) (l : Layer) : Direction → Nat
  | Direction.Left => (g.sizeAt l).2
  | Direction.Right => (g.sizeAt l).2
  | Direction.Down => (g.sizeAt l).1
  | Direction.Up => (g.sizeAt l).1

lemma setLayerData_active (s : Subdomain) (l : Layer) (M : Mat) :
    (setLayerData s l M).active = s.active := by
  cases l <;> rfl

lemma setBoundary_active (g : Geom) (s : Subdomain) (dir : Direction)
    (vals : Nat → ℚ) : (setBoundary g s dir vals).active = s.active := by
  unfold setBoundary
  exact setLayerData_active ..

lemma layerData_setLayerData (s : Subdomain) (l : Layer) (M : Mat) :
    layerData (setLayerData s l M) l = M := by
  cases l <;> rfl

/-- Reading back the strip just written by `setBoundary`. -/
lemma getBoundaryAt_setBoundary (g : Geom) (s : Subdomain) (dir : Direction)
    (vals : Nat → ℚ) {k : Nat} (hk : k < stripLen g s.active dir) :
    getBoundaryAt g (setBoundary g s dir vals) s.active dir k = vals k := by
  cases dir <;>
    simp only [getBoundaryAt, setBoundary, stripLen, setBoundary_active,
      layerData_setLayerData] <;>
    simp_all [stripLen]

lemma UpdBoundary_inflow_other (g : Geom) (curr : Domain) (flw : ℚ × ℚ)
    (ix iy : Nat) (dir : Direction) (o : Bool) (st : SchwarzBoundary × Domain)
    {d : Direction} (h : d ≠ dir) :
    (UpdBoundary g curr flw ix iy dir o st).1.inflow d = st.1.inflow d := by
  unfold UpdBoundary
  split_ifs <;> simp [updFlag, h]

lemma UpdBoundary_inflow_self (g : Geom) (curr : Domain) (flw : ℚ × ℚ)
    (ix iy : Nat) (dir : Direction) (o : Bool)
    (st : SchwarzBoundary × Domain) :
    (UpdBoundary g curr flw ix iy dir o st).1.inflow dir =
      (!o && decide (dotNF dir flw < 0)) := by
  unfold UpdBoundary
  cases o <;> split_ifs <;> simp_all [updFlag]

lemma UpdBoundary_next_eq (g : Geom) (curr : Domain) (flw : ℚ × ℚ)
    (ix iy : Nat) (dir : Direction) (o : Bool) (st : SchwarzBoundary × Domain)
    (h : ¬(o = false ∧ dotNF dir flw < 0)) :
    (UpdBoundary g curr flw ix iy dir o st).2 = st.2 := by
  unfold UpdBoundary
  cases o <;> split_ifs <;> simp_all

lemma UpdBoundary_next_copy (g : Geom) (curr : Domain) (flw : ℚ × ℚ)
    (ix iy : Nat) (dir : Direction) (st : SchwarzBoundary × Domain)
    (h : dotNF dir flw < 0) :
    (UpdBoundary g curr flw ix iy dir false st).2 =
      updateGrid st.2 ix iy (setBoundary g (st.2 ix iy) dir
        (getBoundaryAt g (curr (remoteIdx dir (ix, iy)).1 (remoteIdx dir (ix, iy)).2)
          (curr (remoteIdx dir (ix, iy)).1 (remoteIdx dir (ix, iy)).2).active
          (remoteDir dir))) := by
  unfold UpdBoundary
  simp [h]

/-- Concrete 1×1 lattice of 3×3 fine subdomains with a nonzero at the
interior point `(1, 1)`; every side is on the outer boundary. -/
def gC5 : Geom := ⟨1, 1, 3, 3, 1, 1⟩

def domC5 : Domain := fun _ _ =>
  ⟨fun i j => if i = 1 ∧ j = 1 then 5 else 0, fun _ _ => 0, Layer.Fine⟩

/-- C5 counterexample.  On the outer `Left` side of the single subdomain, the
halo entry `field(0, 2)` of the extended working matrix assembled by
`MatrixFromAllscale` equals the mirrored interior value `5`, not `0`: the
outer halo is not a zero strip. -/
theorem claim_C5_counterexample :
    MatrixFromAllscale gC5 (fun _ _ => 0) domC5 0 0 0 2 = 5 ∧ (5 : ℚ) ≠ 0 := by
  constructor
  · with_unfolding_all decide
  · norm_num

/-- C5 amended.  For a side of the subdomain lying on the outer domain
boundary, the halo strip of the extended `(Sx+2)×(Sy+2)` working matrix
assembled by `MatrixFromAllscale` is not a zero strip but the mirror of the
second interior row/column: `field(0, c) = field(2, c)` on the left,
`field(Sx+1, c) = field(Sx-1, c)` on the right, and likewise vertically —
in terms of the subdomain's layer values, the interior points `(1, c-1)`,
`(Sx-2, c-1)`, `(r-1, 1)` and `(r-1, Sy-2)` respectively. -/
theorem claim_C5_amended (g : Geom) (prev : Mat) (dom : Domain) (ix iy : Nat)
    (hsx : 2 ≤ (g.sizeAt (dom ix iy).active).1)
    (hsy : 2 ≤ (g.sizeAt (dom ix iy).active).2) :
    (ix = 0 → ∀ c, 1 ≤ c → c ≤ (g.sizeAt (dom ix iy).active).2 →
      MatrixFromAllscale g prev dom ix iy 0 c =
        layerData (dom ix iy) (dom ix iy).active 1 (c - 1)) ∧
    (g.Nx ≤ ix + 1 → ∀ c, 1 ≤ c → c ≤ (g.sizeAt (dom ix iy).active).2 →
      MatrixFromAllscale g prev dom ix iy ((g.sizeAt (dom ix iy).active).1 + 1) c =
        layerData (dom ix iy) (dom ix iy).active
          ((g.sizeAt (dom ix iy).active).1 - 2) (c - 1)) ∧
    (iy = 0 → ∀ r, 1 ≤ r → r ≤ (g.sizeAt (dom ix iy).active).1 →
      MatrixFromAllscale g prev dom ix iy r 0 =
        layerData (dom ix iy) (dom ix iy).active (r - 1) 1) ∧
    (g.Ny ≤ iy + 1 → ∀ r, 1 ≤ r → r ≤ (g.sizeAt (dom ix iy).active).1 →
      MatrixFromAllscale g prev dom ix iy r ((g.sizeAt (dom ix iy).active).2 + 1) =
        layerData (dom ix iy) (dom ix iy).active (r - 1)
          ((g.sizeAt (dom ix iy).active).2 - 2)) := by
  refine ⟨?_, ?_, ?_, ?_⟩
  · intro hix c hc1 hc2
    simp only [MatrixFromAllscale]
    rw [mfa6_miss (by omega), mfa5_miss (by omega), mfa4_miss (by omega),
      mfa3_mirror ⟨rfl, hc1, hc2⟩ (decide_eq_false (by omega)),
      mfa2_miss (by omega), mfa1_hit (by omega)]
  · intro hix c hc1 hc2
    simp only [MatrixFromAllscale]
    rw [mfa6_miss (by omega), mfa5_miss (by omega),
      mfa4_mirror ⟨rfl, hc1, hc2⟩ (decide_eq_false (by omega)),
      mfa3_miss (by omega), mfa2_miss (by omega), mfa1_hit (by omega)]
    have h2 : (g.sizeAt (dom ix iy).active).1 - 1 - 1 =
        (g.sizeAt (dom ix iy).active).1 - 2 := by omega
    rw [h2]
  · intro hiy r hr1 hr2
    simp only [MatrixFromAllscale]
    rw [mfa6_miss (by omega),
      mfa5_mirror ⟨rfl, hr1, hr2⟩ (decide_eq_false (by omega)),
      mfa4_miss (by omega), mfa3_miss (by omega), mfa2_miss (by omega),
      mfa1_hit (by omega)]
  · intro hiy r hr1 hr2
    simp only [MatrixFromAllscale]
    rw [mfa6_mirror ⟨rfl, hr1, hr2⟩ (decide_eq_false (by omega)),
      mfa5_miss (by omega), mfa4_miss (by omega), mfa3_miss (by omega),
      mfa2_miss (by omega), mfa1_hit (by omega)]
    have h2 : (g.sizeAt (dom ix iy).active).2 - 1 - 1 =
        (g.sizeAt (dom ix iy).active).2 - 2 := by omega
    rw [h2]

/-- Witness for the amended C5 at the concrete single-subdomain instance:
the mirrored halo value is the interior `5`. -/
theorem claim_C5_amended_witness :
    (0 : Nat) = 0 ∧ 1 ≤ 2 ∧ 2 ≤ 3 ∧
    MatrixFromAllscale gC5 (fun _ _ => 0) domC5 0 0 0 2 =
      layerData (domC5 0 0) (domC5 0 0).active 1 1 ∧
    layerData (domC5 0 0) (domC5 0 0).active 1 1 = 5 := by
  refine ⟨rfl, by decide, by decide, ?_, by with_unfolding_all decide⟩
  exact (claim_C5_amended gC5 (fun _ _ => 0) domC5 0 0 (by decide) (by decide)).1
    rfl 2 (by decide) (by decide)

/-- Concrete 2×1 lattice: the left subdomain holds zeros, the right one holds
sevens, both at fine resolution 3×3. -/
def gC4 : Geom := ⟨2, 1, 3, 3, 1, 1⟩

def subC4a : Subdomain := ⟨fun _ _ => 0, fun _ _ => 0, Layer.Fine⟩

def subC4b : Subdomain := ⟨fun _ _ => 7, fun _ _ => 0, Layer.Fine⟩

def domC4 : Domain := fun p _ => if p = 1 then subC4b else subC4a

/-- C4 counterexample.  For the non-outer `Right` side of subdomain `(0,0)`
under flow `(1, 0)` the dot product with the outward normal is `+1 ≥ 0`
(outflow), yet the halo assembled by `MatrixFromAllscale` still equals the
neighbour's facing strip (`7`), not the mirror of the subdomain's own second
interior row (`0`): the neighbour copy is not conditional on inflow. -/
theorem claim_C4_counterexample :
    0 ≤ dotNF Direction.Right (1, 0) ∧
    MatrixFromAllscale gC4 (fun _ _ => 0) domC4 0 0 4 1 =
      getBoundaryAt gC4 (domC4 1 0) Layer.Fine Direction.Left 0 ∧
    MatrixFromAllscale gC4 (fun _ _ => 0) domC4 0 0 4 1 = 7 ∧
    layerData (domC4 0 0) Layer.Fine 1 0 = 0 ∧ (7 : ℚ) ≠ 0 := by
  with_unfolding_all decide

/-- C4 amended.  (i) In `SchwarzUpdate`, the `inflow` flag of a side is set
exactly when the side is not on the outer boundary and the dot product of its
outward normal with the flow is negative; on such a side the neighbour's
facing strip is copied onto this subdomain's border strip in the next state
(shown for a side whose perpendicular neighbours perform no copy, which would
overwrite the two shared corner cells), and when no side is an inflow side
the next state is left entirely unchanged — no mirroring is performed by
`SchwarzUpdate`.  (ii) In the extended-matrix assembly `MatrixFromAllscale`,
the halo on every non-outer side is always filled from the neighbour's facing
border strip, regardless of the flow; interior mirroring is used only on
outer sides. -/
theorem claim_C4_amended :
    (∀ (g : Geom) (b0 : SchwarzBoundary) (ix iy : Nat) (curr next : Domain)
        (flw : ℚ × ℚ) (d : Direction),
      ((SchwarzUpdate g b0 ix iy curr next flw).1.inflow d = true) ↔
        copies g ix iy flw d) ∧
    (∀ (g : Geom) (b0 : SchwarzBoundary) (ix iy : Nat) (curr next : Domain)
        (flw : ℚ × ℚ) (d : Direction),
      copies g ix iy flw d → (∀ d', d' ≠ d → ¬ copies g ix iy flw d') →
      ∀ k, k < stripLen g (next ix iy).active d →
        getBoundaryAt g ((SchwarzUpdate g b0 ix iy curr next flw).2 ix iy)
            (next ix iy).active d k =
          getBoundaryAt g
            (curr (remoteIdx d (ix, iy)).1 (remoteIdx d (ix, iy)).2)
            (curr (remoteIdx d (ix, iy)).1 (remoteIdx d (ix, iy)).2).active
            (remoteDir d) k) ∧
    (∀ (g : Geom) (b0 : SchwarzBoundary) (ix iy : Nat) (curr next : Domain)
        (flw : ℚ × ℚ),
      (∀ d, ¬ copies g ix iy flw d) →
      (SchwarzUpdate g b0 ix iy curr next flw).2 = next) ∧
    (∀ (g : Geom) (prev : Mat) (dom : Domain) (ix iy : Nat),
      (0 < ix → ∀ c, 1 ≤ c → c ≤ (g.sizeAt (dom ix iy).active).2 →
        MatrixFromAllscale g prev dom ix iy 0 c =
          getBoundaryAt g (dom (ix - 1) iy) (dom ix iy).active
            Direction.Right (c - 1)) ∧
      (ix + 1 < g.Nx → ∀ c, 1 ≤ c → c ≤ (g.sizeAt (dom ix iy).active).2 →
        MatrixFromAllscale g prev dom ix iy
            ((g.sizeAt (dom ix iy).active).1 + 1) c =
          getBoundaryAt g (dom (ix + 1) iy) (dom ix iy).active
            Direction.Left (c - 1)) ∧
      (0 < iy → ∀ r, 1 ≤ r → r ≤ (g.sizeAt (dom ix iy).active).1 →
        MatrixFromAllscale g prev dom ix iy r 0 =
          getBoundaryAt g (dom ix (iy - 1)) (dom ix iy).active
            Direction.Up (r - 1)) ∧
      (iy + 1 < g.Ny → ∀ r, 1 ≤ r → r ≤ (g.sizeAt (dom ix iy).active).1 →
        MatrixFromAllscale g prev dom ix iy r
            ((g.sizeAt (dom ix iy).active).2 + 1) =
          getBoundaryAt g (dom ix (iy + 1)) (dom ix iy).active
            Direction.Down (r - 1))) := by
  refine ⟨?_, ?_, ?_, ?_⟩
  · intro g b0 ix iy curr next flw d
    have h : (SchwarzUpdate g b0 ix iy curr next flw).1.inflow d =
        (!(outerB g ix iy d) && decide (dotNF d flw < 0)) := by
      cases d
      · simp only [SchwarzUpdate]
        rw [UpdBoundary_inflow_self]
      · simp only [SchwarzUpdate]
        rw [UpdBoundary_inflow_other g curr flw ix iy Direction.Up _ _ (by decide),
          UpdBoundary_inflow_self]
      · simp only [SchwarzUpdate]
        rw [UpdBoundary_inflow_other g curr flw ix iy Direction.Up _ _ (by decide),
          UpdBoundary_inflow_other g curr flw ix iy Direction.Down _ _ (by decide),
          UpdBoundary_inflow_other g curr flw ix iy Direction.Right _ _ (by decide),
          UpdBoundary_inflow_self]
      · simp only [SchwarzUpdate]
        rw [UpdBoundary_inflow_other g curr flw ix iy Direction.Up _ _ (by decide),
          UpdBoundary_inflow_other g curr flw ix iy Direction.Down _ _ (by decide),
          UpdBoundary_inflow_self]
    rw [h]
    simp [copies, Bool.and_eq_true, Bool.not_eq_true', decide_eq_true_eq]
  · intro g b0 ix iy curr next flw d hc hothers k hk
    have hupd : ∀ S : Subdomain, updateGrid next ix iy S ix iy = S := by
      intro S; simp [updateGrid]
    cases d
    · -- Up: last stage performs the copy
      simp only [SchwarzUpdate]
      rw [hc.1, UpdBoundary_next_copy g curr flw ix iy Direction.Up _ hc.2,
        UpdBoundary_next_eq g curr flw ix iy Direction.Down _ _
          (hothers Direction.Down (by decide)),
        UpdBoundary_next_eq g curr flw ix iy Direction.Right _ _
          (hothers Direction.Right (by decide)),
        UpdBoundary_next_eq g curr flw ix iy Direction.Left _ _
          (hothers Direction.Left (by decide)), hupd]
      exact getBoundaryAt_setBoundary g (next ix iy) Direction.Up _ hk
    · simp only [SchwarzUpdate]
      rw [UpdBoundary_next_eq g curr flw ix iy Direction.Up _ _
          (hothers Direction.Up (by decide)), hc.1,
        UpdBoundary_next_copy g curr flw ix iy Direction.Down _ hc.2,
        UpdBoundary_next_eq g curr flw ix iy Direction.Right _ _
          (hothers Direction.Right (by decide)),
        UpdBoundary_next_eq g curr flw ix iy Direction.Left _ _
          (hothers Direction.Left (by decide)), hupd]
      exact getBoundaryAt_setBoundary g (next ix iy) Direction.Down _ hk
    · simp only [SchwarzUpdate]
      rw [UpdBoundary_next_eq g curr flw ix iy Direction.Up _ _
          (hothers Direction.Up (by decide)),
        UpdBoundary_next_eq g curr flw ix iy Direction.Down _ _
          (hothers Direction.Down (by decide)),
        UpdBoundary_next_eq g curr flw ix iy Direction.Right _ _
          (hothers Direction.Right (by decide)), hc.1,
        UpdBoundary_next_copy g curr flw ix iy Direction.Left _ hc.2, hupd]
      exact getBoundaryAt_setBoundary g (next ix iy) Direction.Left _ hk
    · simp only [SchwarzUpdate]
      rw [UpdBoundary_next_eq g curr flw ix iy Direction.Up _ _
          (hothers Direction.Up (by decide)),
        UpdBoundary_next_eq g curr flw ix iy Direction.Down _ _
          (hothers Direction.Down (by decide)), hc.1,
        UpdBoundary_next_copy g curr flw ix iy Direction.Right _ hc.2,
        UpdBoundary_next_eq g curr flw ix iy Direction.Left _ _
          (hothers Direction.Left (by decide)), hupd]
      exact getBoundaryAt_setBoundary g (next ix iy) Direction.Right _ hk
  · intro g b0 ix iy curr next flw hno
    simp only [SchwarzUpdate]
    rw [UpdBoundary_next_eq g curr flw ix iy Direction.Up _ _
        (hno Direction.Up),
      UpdBoundary_next_eq g curr flw ix iy Direction.Down _ _
        (hno Direction.Down),
      UpdBoundary_next_eq g curr flw ix iy Direction.Right _ _
        (hno Direction.Right),
      UpdBoundary_next_eq g curr flw ix iy Direction.Left _ _
        (hno Direction.Left)]
  · intro g prev dom ix iy
    refine ⟨?_, ?_, ?_, ?_⟩
    · intro hix c hc1 hc2
      simp only [MatrixFromAllscale]
      rw [mfa6_miss (by omega), mfa5_miss (by omega), mfa4_miss (by omega),
        mfa3_nbr ⟨rfl, hc1, hc2⟩ (decide_eq_true hix)]
    · intro hix c hc1 hc2
      simp only [MatrixFromAllscale]
      rw [mfa6_miss (by omega), mfa5_miss (by omega),
        mfa4_nbr ⟨rfl, hc1, hc2⟩ (decide_eq_true hix)]
    · intro hiy r hr1 hr2
      simp only [MatrixFromAllscale]
      rw [mfa6_miss (by omega), mfa5_nbr ⟨rfl, hr1, hr2⟩ (decide_eq_true hiy)]
    · intro hiy r hr1 hr2
      simp only [MatrixFromAllscale]
      rw [mfa6_nbr ⟨rfl, hr1, hr2⟩ (decide_eq_true hiy)]

def bC4 : SchwarzBoundary := ⟨0, fun _ => false, fun _ => false⟩

def nextC4 : Domain := fun _ _ => ⟨fun _ _ => 1, fun _ _ => 0, Layer.Fine⟩

/-- Witness for the amended C4: on the 2×1 lattice with flow `(-1, 0)` only
the `Right` side of subdomain `(0,0)` is an inflow side; its strip is copied
from the right peer; with flow `(0, 0)` no side copies and the next state is
unchanged; and the halo of the extended matrix on the non-outer `Right` side
always equals the peer strip. -/
theorem claim_C4_amended_witness :
    copies gC4 0 0 ((-1 : ℚ), (0 : ℚ)) Direction.Right ∧
    (SchwarzUpdate gC4 bC4 0 0 domC4 nextC4 ((-1 : ℚ), (0 : ℚ))).1.inflow
        Direction.Right = true ∧
    getBoundaryAt gC4
        ((SchwarzUpdate gC4 bC4 0 0 domC4 nextC4 ((-1 : ℚ), (0 : ℚ))).2 0 0)
        (nextC4 0 0).active Direction.Right 0 =
      getBoundaryAt gC4
        (domC4 (remoteIdx Direction.Right (0, 0)).1
          (remoteIdx Direction.Right (0, 0)).2)
        (domC4 (remoteIdx Direction.Right (0, 0)).1
          (remoteIdx Direction.Right (0, 0)).2).active
        (remoteDir Direction.Right) 0 ∧
    (SchwarzUpdate gC4 bC4 0 0 domC4 nextC4 ((0 : ℚ), (0 : ℚ))).2 = nextC4 ∧
    MatrixFromAllscale gC4 (fun _ _ => 0) domC4 0 0
        ((gC4.sizeAt (domC4 0 0).active).1 + 1) 1 =
      getBoundaryAt gC4 (domC4 1 0) (domC4 0 0).active Direction.Left 0 := by
  have hcop : copies gC4 0 0 ((-1 : ℚ), (0 : ℚ)) Direction.Right := by
    with_unfolding_all decide
  have hothers : ∀ d', d' ≠ Direction.Right →
      ¬ copies gC4 0 0 ((-1 : ℚ), (0 : ℚ)) d' := by
    intro d' hd'
    cases d'
    · with_unfolding_all decide
    · with_unfolding_all decide
    · with_unfolding_all decide
    · exact absurd rfl hd'
  have hnone : ∀ d, ¬ copies gC4 0 0 ((0 : ℚ), (0 : ℚ)) d := by
    intro d
    cases d <;> with_unfolding_all decide
  refine ⟨hcop, ?_, ?_, ?_, ?_⟩
  · exact (claim_C4_amended.1 gC4 bC4 0 0 domC4 nextC4 ((-1 : ℚ), (0 : ℚ))
      Direction.Right).mpr hcop
  · exact claim_C4_amended.2.1 gC4 bC4 0 0 domC4 nextC4 ((-1 : ℚ), (0 : ℚ))
      Direction.Right hcop hothers 0 (by decide)
  · exact claim_C4_amended.2.2.1 gC4 bC4 0 0 domC4 nextC4 ((0 : ℚ), (0 : ℚ))
      hnone
  · exact (claim_C4_amended.2.2.2 gC4 (fun _ _ => 0) domC4 0 0).2.1
      (by decide) 1 (by decide) (by decide)

/-!
## InitDependentParams (src/unnamed/part_003, lines 153-209)

Derivation of the dependent parameters.  The `assert_true` guards are
modelled as `Option` failures; the configuration values the routine reads are
collected in `RawConf`.  `Sx`, `Sy` are the hard-coded fine-layer sizes of a
subdomain cell.
-/

structure RawConf where
  num_subdomains_x : Nat
  num_subdomains_y : Nat
  subdomain_x : Int
  subdomain_y : Int
  domain_size_x : ℚ
  domain_size_y : ℚ
  integration_period : ℚ
  integration_nsteps : Int
  diffusion_coef : ℚ
  flow_model_max_vx : ℚ
  flow_model_max_vy : ℚ

structure DerivedParams where
  dx : ℚ
  dy : ℚ
  dt : ℚ
  Nt : Int

def InitDependentParams (Sx Sy : Nat) (c : RawConf) : Option DerivedParams :=
  if ¬(3 ≤ Sx ∧ 3 ≤ Sy) then none
  else if ¬(c.subdomain_x = Sx ∧ c.subdomain_y = Sy) then none
  else
    let nx := c.num_subdomains_x * Sx
    let ny := c.num_subdomains_y * Sy
    if ¬(0 < c.diffusion_coef) then none
    else
      let dx := c.domain_size_x / ((nx : ℚ) - 1)
      let dy := c.domain_size_y / ((ny : ℚ) - 1)
      if ¬(0 < dx ∧ 0 < dy) then none
      else
        let dt_base := c.integration_period / (c.integration_nsteps : ℚ)
        let dt := min dt_base
          (min (min (dx * dx) (dy * dy) / (2 * c.diffusion_coef + TINY))
            (1 / (|c.flow_model_max_vx| / dx + |c.flow_model_max_vy| / dy + TINY)))
        if ¬(TINY < dt) then none
        else some ⟨dx, dy, dt, Int.ceil (c.integration_period / dt)⟩

/-- The spatial step the startup code derives. -/
def dxFormula (c : RawConf) (Sx : Nat) : ℚ :=
  c.domain_size_x / (((c.num_subdomains_x * Sx : Nat) : ℚ) - 1)

def dyFormula (c : RawConf) (Sy : Nat) : ℚ :=
  c.domain_size_y / (((c.num_subdomains_y * Sy : Nat) : ℚ) - 1)

/-- The time step the startup code derives. -/
def dtFormula (c : RawConf) (Sx Sy : Nat) : ℚ :=
  min (c.integration_period / (c.integration_nsteps : ℚ))
    (min (min (dxFormula c Sx * dxFormula c Sx) (dyFormula c Sy * dyFormula c Sy) /
        (2 * c.diffusion_coef + TINY))
      (1 / (|c.flow_model_max_vx| / dxFormula c Sx +
            |c.flow_model_max_vy| / dyFormula c Sy + TINY)))

lemma TINY_pos : 0 < TINY := by
  unfold TINY
  positivity

/-- C7.  At startup the derived parameters satisfy
`dx = domain_size_x/(Nx_sub·Sx − 1)`, `dy = domain_size_y/(Ny_sub·Sy − 1)`,
`dt = min(T/nsteps, min(dx², dy²)/(2D+ε), 1/(|max_vx|/dx + |max_vy|/dy + ε))`
with `ε = TINY`, and `Nt = ⌈T/dt⌉`; a derived `dt ≤ 0` is a fatal startup
error (the startup aborts and produces nothing). -/
theorem claim_C7_derived_params :
    (∀ (Sx Sy : Nat) (c : RawConf) (d : DerivedParams),
      InitDependentParams Sx Sy c = some d →
      d.dx = dxFormula c Sx ∧ d.dy = dyFormula c Sy ∧
      d.dt = min (c.integration_period / (c.integration_nsteps : ℚ))
        (min (min (d.dx * d.dx) (d.dy * d.dy) / (2 * c.diffusion_coef + TINY))
          (1 / (|c.flow_model_max_vx| / d.dx + |c.flow_model_max_vy| / d.dy + TINY))) ∧
      d.Nt = Int.ceil (c.integration_period / d.dt)) ∧
    (∀ (Sx Sy : Nat) (c : RawConf),
      dtFormula c Sx Sy ≤ 0 → InitDependentParams Sx Sy c = none) := by
  constructor
  · intro Sx Sy c d h
    unfold InitDependentParams at h
    simp only at h
    split at h
    · exact absurd h (by simp)
    split at h
    · exact absurd h (by simp)
    split at h
    · exact absurd h (by simp)
    split at h
    · exact absurd h (by simp)
    split at h
    · exact absurd h (by simp)
    rcases Option.some.inj h with rfl
    exact ⟨rfl, rfl, rfl, rfl⟩
  · intro Sx Sy c hle
    unfold InitDependentParams
    simp only
    split
    · rfl
    split
    · rfl
    split
    · rfl
    split
    · rfl
    split
    · rfl
    rename_i h5
    exfalso
    have h5' : TINY < dtFormula c Sx Sy := not_not.mp h5
    have := lt_of_lt_of_le h5' hle
    exact absurd this (not_lt.mpr (le_of_lt TINY_pos))

/-- Concrete configuration for the C7 witness: 1×1 lattice of 3×3
subdomains, a 10×10 domain, unit period, one step, unit diffusion, no
flow. -/
def confC7 : RawConf := ⟨1, 1, 3, 3, 10, 10, 1, 1, 1, 0, 0⟩

lemma confC7_dt_large : TINY < dtFormula confC7 3 3 := by
  unfold dtFormula
  rw [lt_min_iff, lt_min_iff]
  refine ⟨?_, ?_, ?_⟩ <;>
    norm_num [confC7, dxFormula, dyFormula, TINY]

lemma initC7_eval : InitDependentParams 3 3 confC7 =
    some ⟨dxFormula confC7 3, dyFormula confC7 3, dtFormula confC7 3 3,
      Int.ceil (confC7.integration_period / dtFormula confC7 3 3)⟩ := by
  unfold InitDependentParams
  simp only
  rw [if_neg (not_not_intro (by decide : (3 : Nat) ≤ 3 ∧ (3 : Nat) ≤ 3)),
    if_neg (not_not_intro ⟨by decide, by decide⟩),
    if_neg (not_not_intro (by norm_num [confC7])),
    if_neg (not_not_intro ⟨by norm_num [confC7], by norm_num [confC7]⟩)]
  split
  · rename_i h5
    exact absurd confC7_dt_large h5
  · rfl

theorem claim_C7_witness :
    ∃ d, InitDependentParams 3 3 confC7 = some d ∧
      d.dx = dxFormula confC7 3 ∧ d.dy = dyFormula confC7 3 ∧
      d.dt = min (confC7.integration_period / (confC7.integration_nsteps : ℚ))
        (min (min (d.dx * d.dx) (d.dy * d.dy) / (2 * confC7.diffusion_coef + TINY))
          (1 / (|confC7.flow_model_max_vx| / d.dx +
                |confC7.flow_model_max_vy| / d.dy + TINY))) ∧
      d.Nt = Int.ceil (confC7.integration_period / d.dt) := by
  refine ⟨_, initC7_eval, ?_⟩
  exact claim_C7_derived_params.1 3 3 confC7 _ initC7_eval

/-!
## The snapshot observer's time filter (src/unnamed/part_003, lines 752-760)

    [=](time_t t) {
        if ((t % time_t(Nschwarz)) != 0) return false;
        t /= time_t(Nschwarz);
        return ((((Nwrite-1)*(t-1))/(Nt-1) != ((Nwrite-1)*t)/(Nt-1)));
    }

`t` has the signed 64-bit type `time_t` while `Nwrite`, `Nt` are `size_t`
(unsigned 64-bit).  By the usual arithmetic conversions the products and
divisions are carried out in unsigned 64-bit arithmetic: `t - 1` is computed
as a signed value and then converted to `size_t` (two's complement, i.e.
reduction mod `2^64`); the products are reduced mod `2^64`; the divisions are
unsigned.  `u64` models that conversion.  The stencil drives the observer
over logical times `t ∈ [0, Nt·Nschwarz)` (spec 4.6). -/
def u64 (z : Int) : Nat := (z % (2 ^ 64 : Int)).toNat

def timeFilter (Nschwarz Nwrite Nt : Nat) (t : Int) : Bool :=
  if t % (Nschwarz : Int) ≠ 0 then false
  else
    let ts := t / (Nschwarz : Int)
    decide ((Nwrite - 1) * u64 (ts - 1) % 2 ^ 64 / (Nt - 1) ≠
            (Nwrite - 1) * u64 ts % 2 ^ 64 / (Nt - 1))

/-- C9.  With `Nt = 100`, `Nsub_iter = 3` and `Nwrite = 11`, the observer's
time filter accepts exactly 11 logical times in `[0, Nt·Nsub_iter)`, whose
time-step indices `t / Nsub_iter` are `0, 10, ..., 90, 99`: pairwise
distinct, 11 of them, and each within `±1` of `10·k`. -/
theorem claim_C9_snapshot_selection :
    (((List.range 300).filter (fun t => timeFilter 3 11 100 (t : Int))).map
        (fun t => t / 3) = [0, 10, 20, 30, 40, 50, 60, 70, 80, 90, 99]) ∧
    (((List.range 300).filter (fun t => timeFilter 3 11 100 (t : Int))).map
        (fun t => t / 3)).Nodup ∧
    (((List.range 300).filter (fun t => timeFilter 3 11 100 (t : Int))).map
        (fun t => t / 3)).length = 11 ∧
    (∀ k, k < 11 →
      ((((List.range 300).filter (fun t => timeFilter 3 11 100 (t : Int))).map
          (fun t => t / 3)).getD k 0 : Int) - 10 * k ≤ 1 ∧
      (10 * k : Int) -
        ((((List.range 300).filter (fun t => timeFilter 3 11 100 (t : Int))).map
          (fun t => t / 3)).getD k 0 : Int) ≤ 1) := by
  with_unfolding_all decide

/-- C10 counterexample.  At the configuration `Nt = 100`, `Nwrite = 11`,
`Nsub_iter = 3` (which satisfies `2 ≤ Nwrite < Nt`) the filter accepts
`t = 0`: the observer does fire at time step 0, contradicting the claim that
it never does. -/
theorem claim_C10_counterexample :
    2 ≤ 11 ∧ 11 < 100 ∧ timeFilter 3 11 100 0 = true := by
  with_unfolding_all decide

/-- C10 amended.  The filter expression is evaluated in unsigned 64-bit
arithmetic (`Nwrite`, `Nt` are `size_t`), so at `t = 0` the left side is
`(2^64 - (Nwrite-1)) / (Nt-1) ≠ 0` while the right side is `0`: for every
configuration with `2 ≤ Nwrite < Nt ≤ 2^63`, the snapshot observer always
fires at time step 0, and the initial field is written to the result file. -/
theorem claim_C10_amended (Nschwarz Nwrite Nt : Nat) (h2 : 2 ≤ Nwrite)
    (hlt : Nwrite < Nt) (hNt : Nt ≤ 2 ^ 63) :
    timeFilter Nschwarz Nwrite Nt 0 = true := by
  unfold timeFilter
  have h0 : (0 : Int) % (Nschwarz : Int) = 0 := by simp
  rw [if_neg (not_not_intro h0)]
  have hts : (0 : Int) / (Nschwarz : Int) = 0 := by simp
  simp only [hts]
  have hu1 : u64 ((0 : Int) - 1) = 2 ^ 64 - 1 := by with_unfolding_all decide
  have hu0 : u64 (0 : Int) = 0 := by with_unfolding_all decide
  rw [hu1, hu0]
  apply decide_eq_true
  have hmod : (Nwrite - 1) * (2 ^ 64 - 1) % 2 ^ 64 = 2 ^ 64 - (Nwrite - 1) := by
    have hid : (Nwrite - 1) * (2 ^ 64 - 1) =
        (2 ^ 64 - (Nwrite - 1)) + (Nwrite - 1 - 1) * 2 ^ 64 := by
      omega
    rw [hid, Nat.add_mul_mod_self_right, Nat.mod_eq_of_lt (by omega)]
  rw [hmod]
  have hz : (Nwrite - 1) * 0 % 2 ^ 64 / (Nt - 1) = 0 := by simp
  rw [hz]
  intro heq
  rw [Nat.div_eq_zero_iff (by omega)] at heq
  omega

theorem claim_C10_amended_witness :
    2 ≤ 11 ∧ 11 < 100 ∧ 100 ≤ 2 ^ 63 ∧ timeFilter 3 11 100 0 = true :=
  ⟨by decide, by decide, by norm_num,
    claim_C10_amended 3 11 100 (by decide) (by decide) (by norm_num)⟩

/-!
## The per-subdomain update routines (src/unnamed/part_003, lines 471-628)

`SubdomainRoutineKalman` and `SubdomainRoutineNoSensors`.  The configuration
values read by the routines are collected in `Conf`; the current flow vector
(computed upstream by the `sin`-based `Flow`) and the uniform random draws of
`ComputeQ` / `ComputeR` enter as oracle parameters; `observations` is the
per-subdomain measurement table.  The failing `assert_true` guards and the
factorization failures are `Option` failures.  `nextSub` is the subdomain's
cell inside `next_state`; the updated cell and the updated context are
returned.
-/

structure Conf where
  D : ℚ
  dt : ℚ
  dx : ℚ
  dy : ℚ
  noiseQ : ℚ
  noiseR : ℚ

/-- `GetObservations`: `z(i) = observations(timestep, i)`
(src/unnamed/part_003, lines 125-147). -/
def GetObservations (obs : Nat → Nat → ℚ) (t : Nat) : Vec := fun i => obs t i

/-- `ComputeQ` (lines 275-286): a fresh diagonal
`Q(k,k) = 1 + model_noise_Q * uniform()`, the draws given by the oracle. -/
def ComputeQ (noise : ℚ) (draw : Nat → ℚ) : Mat :=
  fun r c => if r = c then 1 + noise * draw r else 0

/-- `ComputeR` (lines 291-302), analogous to `ComputeQ`. -/
def ComputeR (noise : ℚ) (draw : Nat → ℚ) : Mat :=
  fun r c => if r = c then 1 + noise * draw r else 0

/-- The per-subdomain context (`SubdomainContext`, lines 70-101), restricted
to the fields the routines read or write. -/
structure Ctx where
  field : Mat
  B : Mat
  P : Mat
  Q : Mat
  H : Mat
  R : Mat
  z : Vec
  Nt : Nat
  Nschwarz : Nat
  flow : ℚ × ℚ

/-- Tail of `SubdomainRoutineKalman` after the filter: write the estimation
back, clamp the outer boundary for an external subdomain, clamp negatives,
refresh the coarse layer, return to fine resolution. -/
def finishKalman (g : Geom) (external : Bool) (ix iy : Nat)
    (nextSub0 : Subdomain) (field2 : Mat) : Subdomain :=
  let ns1 := AllscaleFromMatrix g nextSub0 field2
  let ns2 := if external then ApplyBoundaryCondition g ix iy ns1 else ns1
  setActiveLayer (coarsenSub g (fun e => e) (clampSub g ns2)) Layer.Fine

/-- Tail of `SubdomainRoutineNoSensors`: as `finishKalman` but refreshing the
fine layer and returning to low resolution. -/
def finishNoSensors (g : Geom) (external : Bool) (ix iy : Nat)
    (nextSub0 : Subdomain) (field1 : Mat) : Subdomain :=
  let ns1 := AllscaleFromMatrix g nextSub0 field1
  let ns2 := if external then ApplyBoundaryCondition g ix iy ns1 else ns1
  setActiveLayer (refineSub g (fun e => e) (clampSub g ns2)) Layer.Low

/-- Embedding of `SubdomainRoutineKalman` (lines 471-555). -/
def SubdomainRoutineKalman (g : Geom) (cf : Conf) (m : Nat)
    (obs : Nat → Nat → ℚ) (qd rd : Nat → ℚ) (flw : ℚ × ℚ)
    (external : Bool) (t : Nat) (curr : Domain) (nextSub : Subdomain)
    (ctx : Ctx) (ix iy : Nat) : Option (Subdomain × Ctx) :=
  if ¬(t < ctx.Nt * ctx.Nschwarz) then none
  else if ¬((curr ix iy).active = Layer.Fine) then none
  else
    let sx := g.fineX
    let sy := g.fineY
    let n := (sx + 2) * (sy + 2)
    let nextSub0 := setActiveLayer nextSub Layer.Fine
    let field0 := MatrixFromAllscale g ctx.field curr ix iy
    match
      (if t % ctx.Nschwarz = 0 then
        (PropagateStateInverse n (vecOfMat sy field0) ctx.P
            (InverseModelMatrix cf.D cf.dt cf.dx cf.dy flw sx sy 0)
            (ComputeQ cf.noiseQ qd)).map
          (fun xp => (matOfVec sy xp.1, xp.2,
            InverseModelMatrix cf.D cf.dt cf.dx cf.dy flw sx sy 0,
            ComputeQ cf.noiseQ qd, ComputeR cf.noiseR rd,
            GetObservations obs (t / ctx.Nschwarz)))
      else some (field0, ctx.P, ctx.B, ctx.Q, ctx.R, ctx.z) :
        Option (Mat × Mat × Mat × Mat × Mat × Vec)) with
    | none => none
    | some (field1, P1, B', Q', R', z') =>
      match SolveFilter n m (vecOfMat sy field1) P1 ctx.H R' z' with
      | none => none
      | some xP =>
        some (finishKalman g external ix iy nextSub0 (matOfVec sy xP.1),
          { ctx with field := matOfVec sy xP.1, B := B', P := xP.2, Q := Q',
                     R := R', z := z', flow := flw })

/-- Embedding of `SubdomainRoutineNoSensors` (lines 560-628). -/
def SubdomainRoutineNoSensors (g : Geom) (cf : Conf) (flw : ℚ × ℚ)
    (external : Bool) (t : Nat) (curr : Domain) (nextSub : Subdomain)
    (ctx : Ctx) (ix iy : Nat) : Option (Subdomain × Ctx) :=
  if ¬(t < ctx.Nt * ctx.Nschwarz) then none
  else if ¬((curr ix iy).active = Layer.Low) then none
  else
    let lx := g.lowX
    let ly := g.lowY
    let n := (lx + 2) * (ly + 2)
    let nextSub0 := setActiveLayer nextSub Layer.Low
    let field0 := MatrixFromAllscale g ctx.field curr ix iy
    let B' := InverseModelMatrix cf.D cf.dt cf.dx cf.dy flw lx ly ctx.Nschwarz
    match luSolveVec n B' (vecOfMat ly field0) with
    | none => none
    | some xv =>
      some (finishNoSensors g external ix iy nextSub0 (matOfVec ly xv),
        { ctx with field := matOfVec ly xv, B := B', flow := flw })

lemma activeData_setLayerData_self (s : Subdomain) (M : Mat) :
    activeData (setLayerData s s.active M) = M := by
  unfold activeData
  rw [setLayerData_active, layerData_setLayerData]

lemma AllscaleFromMatrix_active (g : Geom) (s : Subdomain) (f : Mat) :
    (AllscaleFromMatrix g s f).active = s.active :=
  setLayerData_active ..

lemma clampSub_active (g : Geom) (s : Subdomain) :
    (clampSub g s).active = s.active :=
  setLayerData_active ..

lemma ApplyBoundaryCondition_active (g : Geom) (ix iy : Nat) (s : Subdomain) :
    (ApplyBoundaryCondition g ix iy s).active = s.active := by
  unfold ApplyBoundaryCondition
  split_ifs <;> simp [setBoundary_active]

/-- Non-negativity of the active layer after the clamp. -/
lemma clampSub_nonneg (g : Geom) (s : Subdomain) {x y : Nat}
    (hx : x < (g.sizeAt s.active).1) (hy : y < (g.sizeAt s.active).2) :
    0 ≤ activeData (clampSub g s) x y := by
  unfold clampSub
  rw [activeData_setLayerData_self]
  by_cases hv : activeData s x y < 0
  · rw [if_pos ⟨hx, hy, hv⟩]
  · rw [if_neg (by tauto)]
    exact le_of_not_lt hv

/-- A zero cell of the active layer stays zero through the clamp. -/
lemma clampSub_zero (g : Geom) (s : Subdomain) {x y : Nat}
    (h : activeData s x y = 0) : activeData (clampSub g s) x y = 0 := by
  unfold clampSub
  rw [activeData_setLayerData_self]
  split_ifs with hc
  · rfl
  · exact h

lemma finishKalman_active (g : Geom) (external : Bool) (ix iy : Nat)
    (ns0 : Subdomain) (f2 : Mat) :
    (finishKalman g external ix iy ns0 f2).active = Layer.Fine := rfl

lemma finishNoSensors_active (g : Geom) (external : Bool) (ix iy : Nat)
    (ns0 : Subdomain) (f1 : Mat) :
    (finishNoSensors g external ix iy ns0 f1).active = Layer.Low := rfl

lemma activeData_finishKalman (g : Geom) (external : Bool) (ix iy : Nat)
    (ns0 : Subdomain) (f2 : Mat) (hact : ns0.active = Layer.Fine) :
    activeData (finishKalman g external ix iy ns0 f2) =
      activeData (clampSub g
        (if external then
          ApplyBoundaryCondition g ix iy (AllscaleFromMatrix g ns0 f2)
        else AllscaleFromMatrix g ns0 f2)) := by
  have hns2 : (if external then
      ApplyBoundaryCondition g ix iy (AllscaleFromMatrix g ns0 f2)
    else AllscaleFromMatrix g ns0 f2).active = Layer.Fine := by
    split <;> simp [ApplyBoundaryCondition_active, AllscaleFromMatrix_active, hact]
  show (coarsenSub g (fun e => e) (clampSub g
      (if external then ApplyBoundaryCondition g ix iy (AllscaleFromMatrix g ns0 f2)
       else AllscaleFromMatrix g ns0 f2))).fineData = _
  unfold activeData
  rw [clampSub_active, hns2]
  rfl

lemma activeData_finishNoSensors (g : Geom) (external : Bool) (ix iy : Nat)
    (ns0 : Subdomain) (f1 : Mat) (hact : ns0.active = Layer.Low) :
    activeData (finishNoSensors g external ix iy ns0 f1) =
      activeData (clampSub g
        (if external then
          ApplyBoundaryCondition g ix iy (AllscaleFromMatrix g ns0 f1)
        else AllscaleFromMatrix g ns0 f1)) := by
  have hns2 : (if external then
      ApplyBoundaryCondition g ix iy (AllscaleFromMatrix g ns0 f1)
    else AllscaleFromMatrix g ns0 f1).active = Layer.Low := by
    split <;> simp [ApplyBoundaryCondition_active, AllscaleFromMatrix_active, hact]
  show (refineSub g (fun e => e) (clampSub g
      (if external then ApplyBoundaryCondition g ix iy (AllscaleFromMatrix g ns0 f1)
       else AllscaleFromMatrix g ns0 f1))).lowData = _
  unfold activeData
  rw [clampSub_active, hns2]
  rfl

/-- C2.  For every time index and every subdomain, after the per-subdomain
update routine (`SubdomainRoutineKalman` or `SubdomainRoutineNoSensors`)
returns, every node value of the subdomain's active layer in the next state
is `≥ 0`. -/
theorem claim_C2_nonnegativity :
    (∀ (g : Geom) (cf : Conf) (m : Nat) (obs : Nat → Nat → ℚ)
        (qd rd : Nat → ℚ) (flw : ℚ × ℚ) (external : Bool) (t : Nat)
        (curr : Domain) (nextSub : Subdomain) (ctx : Ctx) (ix iy : Nat)
        (sub' : Subdomain) (ctx' : Ctx),
      SubdomainRoutineKalman g cf m obs qd rd flw external t curr nextSub
          ctx ix iy = some (sub', ctx') →
      ∀ x y, x < (g.sizeAt sub'.active).1 → y < (g.sizeAt sub'.active).2 →
        0 ≤ activeData sub' x y) ∧
    (∀ (g : Geom) (cf : Conf) (flw : ℚ × ℚ) (external : Bool) (t : Nat)
        (curr : Domain) (nextSub : Subdomain) (ctx : Ctx) (ix iy : Nat)
        (sub' : Subdomain) (ctx' : Ctx),
      SubdomainRoutineNoSensors g cf flw external t curr nextSub ctx ix iy =
          some (sub', ctx') →
      ∀ x y, x < (g.sizeAt sub'.active).1 → y < (g.sizeAt sub'.active).2 →
        0 ≤ activeData sub' x y) := by
  constructor
  · intro g cf m obs qd rd flw external t curr nextSub ctx ix iy sub' ctx' h
    unfold SubdomainRoutineKalman at h
    simp only at h
    split at h
    · exact absurd h (by simp)
    split at h
    · exact absurd h (by simp)
    split at h
    · exact absurd h (by simp)
    split at h
    · exact absurd h (by simp)
    rcases Prod.mk.injEq .. ▸ Option.some.inj h with ⟨hsub, -⟩
    intro x y hx hy
    rw [← hsub] at hx hy ⊢
    rw [activeData_finishKalman g external ix iy _ _ rfl]
    rw [finishKalman_active] at hx hy
    apply clampSub_nonneg
    · split <;>
        simp_all [ApplyBoundaryCondition_active, AllscaleFromMatrix_active,
          setActiveLayer]
    · split <;>
        simp_all [ApplyBoundaryCondition_active, AllscaleFromMatrix_active,
          setActiveLayer]
  · intro g cf flw external t curr nextSub ctx ix iy sub' ctx' h
    unfold SubdomainRoutineNoSensors at h
    simp only at h
    split at h
    · exact absurd h (by simp)
    split at h
    · exact absurd h (by simp)
    split at h
    · exact absurd h (by simp)
    rcases Prod.mk.injEq .. ▸ Option.some.inj h with ⟨hsub, -⟩
    intro x y hx hy
    rw [← hsub] at hx hy ⊢
    rw [activeData_finishNoSensors g external ix iy _ _ rfl]
    rw [finishNoSensors_active] at hx hy
    apply clampSub_nonneg
    · split <;>
        simp_all [ApplyBoundaryCondition_active, AllscaleFromMatrix_active,
          setActiveLayer]
    · split <;>
        simp_all [ApplyBoundaryCondition_active, AllscaleFromMatrix_active,
          setActiveLayer]

lemma activeData_setBoundary_left (g : Geom) (s : Subdomain) (vals : Nat → ℚ)
    {q : Nat} (hq : q < (g.sizeAt s.active).2) :
    activeData (setBoundary g s Direction.Left vals) 0 q = vals q := by
  simp only [setBoundary, activeData_setLayerData_self]
  simp [hq]

lemma activeData_setBoundary_right (g : Geom) (s : Subdomain) (vals : Nat → ℚ)
    {q : Nat} (hq : q < (g.sizeAt s.active).2) :
    activeData (setBoundary g s Direction.Right vals)
      ((g.sizeAt s.active).1 - 1) q = vals q := by
  simp only [setBoundary, activeData_setLayerData_self]
  simp [hq]

lemma activeData_setBoundary_down (g : Geom) (s : Subdomain) (vals : Nat → ℚ)
    {p : Nat} (hp : p < (g.sizeAt s.active).1) :
    activeData (setBoundary g s Direction.Down vals) p 0 = vals p := by
  simp only [setBoundary, activeData_setLayerData_self]
  simp [hp]

lemma activeData_setBoundary_up (g : Geom) (s : Subdomain) (vals : Nat → ℚ)
    {p : Nat} (hp : p < (g.sizeAt s.active).1) :
    activeData (setBoundary g s Direction.Up vals) p
      ((g.sizeAt s.active).2 - 1) = vals p := by
  simp only [setBoundary, activeData_setLayerData_self]
  simp [hp]

/-- Writing a zero strip preserves a zero entry anywhere. -/
lemma activeData_setBoundary_zero (g : Geom) (s : Subdomain) (dir : Direction)
    {p q : Nat} (h : activeData s p q = 0) :
    activeData (setBoundary g s dir (fun _ => 0)) p q = 0 := by
  cases dir <;> simp only [setBoundary, activeData_setLayerData_self] <;>
    split_ifs <;> simp [h]

lemma abc_left_zero (g : Geom) (ix iy : Nat) (s : Subdomain) (hix : ix = 0)
    {q : Nat} (hq : q < (g.sizeAt s.active).2) :
    activeData (ApplyBoundaryCondition g ix iy s) 0 q = 0 := by
  have h1 : activeData (setBoundary g s Direction.Left (fun _ => 0)) 0 q = 0 :=
    activeData_setBoundary_left g s (fun _ => 0) hq
  unfold ApplyBoundaryCondition
  simp only [hix, eq_self_iff_true, if_true]
  split_ifs <;>
    (repeat first
      | exact h1
      | apply activeData_setBoundary_zero)

lemma abc_right_zero (g : Geom) (ix iy : Nat) (s : Subdomain)
    (hix : ix = g.Nx - 1) {q : Nat} (hq : q < (g.sizeAt s.active).2) :
    activeData (ApplyBoundaryCondition g ix iy s)
      ((g.sizeAt s.active).1 - 1) q = 0 := by
  have key : ∀ s1 : Subdomain, s1.active = s.active →
      activeData (setBoundary g s1 Direction.Right (fun _ => 0))
        ((g.sizeAt s.active).1 - 1) q = 0 := by
    intro s1 ha
    have hq' : q < (g.sizeAt s1.active).2 := by rw [ha]; exact hq
    have h2 := activeData_setBoundary_right g s1 (fun _ => 0) hq'
    rw [ha] at h2
    exact h2
  unfold ApplyBoundaryCondition
  simp only [hix, eq_self_iff_true, if_true]
  split_ifs <;>
    (repeat first
      | exact key _ (by simp [setBoundary_active])
      | apply activeData_setBoundary_zero)

lemma abc_down_zero (g : Geom) (ix iy : Nat) (s : Subdomain) (hiy : iy = 0)
    {p : Nat} (hp : p < (g.sizeAt s.active).1) :
    activeData (ApplyBoundaryCondition g ix iy s) p 0 = 0 := by
  have key : ∀ s2 : Subdomain, s2.active = s.active →
      activeData (setBoundary g s2 Direction.Down (fun _ => 0)) p 0 = 0 := by
    intro s2 ha
    have hp' : p < (g.sizeAt s2.active).1 := by rw [ha]; exact hp
    exact activeData_setBoundary_down g s2 (fun _ => 0) hp'
  unfold ApplyBoundaryCondition
  simp only [hiy, eq_self_iff_true, if_true]
  split_ifs <;>
    (repeat first
      | exact key _ (by simp [setBoundary_active])
      | apply activeData_setBoundary_zero)

lemma abc_up_zero (g : Geom) (ix iy : Nat) (s : Subdomain)
    (hiy : iy = g.Ny - 1) {p : Nat} (hp : p < (g.sizeAt s.active).1) :
    activeData (ApplyBoundaryCondition g ix iy s) p
      ((g.sizeAt s.active).2 - 1) = 0 := by
  have key : ∀ s3 : Subdomain, s3.active = s.active →
      activeData (setBoundary g s3 Direction.Up (fun _ => 0)) p
        ((g.sizeAt s.active).2 - 1) = 0 := by
    intro s3 ha
    have hp' : p < (g.sizeAt s3.active).1 := by rw [ha]; exact hp
    have h2 := activeData_setBoundary_up g s3 (fun _ => 0) hp'
    rw [ha] at h2
    exact h2
  unfold ApplyBoundaryCondition
  simp only [hiy, eq_self_iff_true, if_true]
  split_ifs <;>
    (repeat first
      | exact key _ (by simp [setBoundary_active])
      | apply activeData_setBoundary_zero)

lemma abc_right_zero_at (g : Geom) (ix iy : Nat) (s : Subdomain) (l : Layer)
    (hix : ix = g.Nx - 1) (hl : s.active = l) {q : Nat}
    (hq : q < (g.sizeAt l).2) :
    activeData (ApplyBoundaryCondition g ix iy s)
      ((g.sizeAt l).1 - 1) q = 0 := by
  have hq' : q < (g.sizeAt s.active).2 := by rw [hl]; exact hq
  have h2 := abc_right_zero g ix iy s hix hq'
  rw [hl] at h2
  exact h2

lemma abc_up_zero_at (g : Geom) (ix iy : Nat) (s : Subdomain) (l : Layer)
    (hiy : iy = g.Ny - 1) (hl : s.active = l) {p : Nat}
    (hp : p < (g.sizeAt l).1) :
    activeData (ApplyBoundaryCondition g ix iy s) p
      ((g.sizeAt l).2 - 1) = 0 := by
  have hp' : p < (g.sizeAt s.active).1 := by rw [hl]; exact hp
  have h2 := abc_up_zero g ix iy s hiy hp'
  rw [hl] at h2
  exact h2

lemma activeData_finishKalman_ext (g : Geom) (ix iy : Nat)
    (ns0 : Subdomain) (f2 : Mat) (hact : ns0.active = Layer.Fine) :
    activeData (finishKalman g true ix iy ns0 f2) =
      activeData (clampSub g (ApplyBoundaryCondition g ix iy
        (AllscaleFromMatrix g ns0 f2))) := by
  rw [activeData_finishKalman g true ix iy ns0 f2 hact]
  simp

lemma activeData_finishNoSensors_ext (g : Geom) (ix iy : Nat)
    (ns0 : Subdomain) (f1 : Mat) (hact : ns0.active = Layer.Low) :
    activeData (finishNoSensors g true ix iy ns0 f1) =
      activeData (clampSub g (ApplyBoundaryCondition g ix iy
        (AllscaleFromMatrix g ns0 f1))) := by
  rw [activeData_finishNoSensors g true ix iy ns0 f1 hact]
  simp

/-- C3.  For every time index and every subdomain lying on the outer face of
the lattice, after the per-subdomain update routine returns (with the
`is_external` flag set), every node of the subdomain's active-layer border
strip that faces the outer domain boundary equals exactly 0: the zero
Dirichlet clamp `ApplyBoundaryCondition` writes the zero strips and the
subsequent non-negativity clamp preserves those zeros. -/
theorem claim_C3_outer_dirichlet :
    (∀ (g : Geom) (cf : Conf) (m : Nat) (obs : Nat → Nat → ℚ)
        (qd rd : Nat → ℚ) (flw : ℚ × ℚ) (t : Nat) (curr : Domain)
        (nextSub : Subdomain) (ctx : Ctx) (ix iy : Nat) (sub' : Subdomain)
        (ctx' : Ctx),
      SubdomainRoutineKalman g cf m obs qd rd flw true t curr nextSub ctx
          ix iy = some (sub', ctx') →
      (ix = 0 → ∀ q, q < (g.sizeAt sub'.active).2 →
        activeData sub' 0 q = 0) ∧
      (ix = g.Nx - 1 → ∀ q, q < (g.sizeAt sub'.active).2 →
        activeData sub' ((g.sizeAt sub'.active).1 - 1) q = 0) ∧
      (iy = 0 → ∀ p, p < (g.sizeAt sub'.active).1 →
        activeData sub' p 0 = 0) ∧
      (iy = g.Ny - 1 → ∀ p, p < (g.sizeAt sub'.active).1 →
        activeData sub' p ((g.sizeAt sub'.active).2 - 1) = 0)) ∧
    (∀ (g : Geom) (cf : Conf) (flw : ℚ × ℚ) (t : Nat) (curr : Domain)
        (nextSub : Subdomain) (ctx : Ctx) (ix iy : Nat) (sub' : Subdomain)
        (ctx' : Ctx),
      SubdomainRoutineNoSensors g cf flw true t curr nextSub ctx ix iy =
          some (sub', ctx') →
      (ix = 0 → ∀ q, q < (g.sizeAt sub'.active).2 →
        activeData sub' 0 q = 0) ∧
      (ix = g.Nx - 1 → ∀ q, q < (g.sizeAt sub'.active).2 →
        activeData sub' ((g.sizeAt sub'.active).1 - 1) q = 0) ∧
      (iy = 0 → ∀ p, p < (g.sizeAt sub'.active).1 →
        activeData sub' p 0 = 0) ∧
      (iy = g.Ny - 1 → ∀ p, p < (g.sizeAt sub'.active).1 →
        activeData sub' p ((g.sizeAt sub'.active).2 - 1) = 0)) := by
  constructor
  · intro g cf m obs qd rd flw t curr nextSub ctx ix iy sub' ctx' h
    unfold SubdomainRoutineKalman at h
    simp only at h
    split at h
    · exact absurd h (by simp)
    split at h
    · exact absurd h (by simp)
    split at h
    · exact absurd h (by simp)
    split at h
    · exact absurd h (by simp)
    rcases Prod.mk.injEq .. ▸ Option.some.inj h with ⟨hsub, -⟩
    rw [← hsub]
    have hact : ∀ f : Mat, (AllscaleFromMatrix g
        (setActiveLayer nextSub Layer.Fine) f).active = Layer.Fine := by
      intro f
      rw [AllscaleFromMatrix_active]
      rfl
    refine ⟨?_, ?_, ?_, ?_⟩
    · intro hpos q hq
      rw [finishKalman_active] at hq
      rw [activeData_finishKalman_ext g ix iy _ _ rfl]
      exact clampSub_zero g _ (abc_left_zero g ix iy _ hpos
        (by rw [hact _]; exact hq))
    · intro hpos q hq
      rw [finishKalman_active] at hq ⊢
      rw [activeData_finishKalman_ext g ix iy _ _ rfl]
      exact clampSub_zero g _
        (abc_right_zero_at g ix iy _ Layer.Fine hpos (hact _) hq)
    · intro hpos p hp
      rw [finishKalman_active] at hp
      rw [activeData_finishKalman_ext g ix iy _ _ rfl]
      exact clampSub_zero g _ (abc_down_zero g ix iy _ hpos
        (by rw [hact _]; exact hp))
    · intro hpos p hp
      rw [finishKalman_active] at hp ⊢
      rw [activeData_finishKalman_ext g ix iy _ _ rfl]
      exact clampSub_zero g _
        (abc_up_zero_at g ix iy _ Layer.Fine hpos (hact _) hp)
  · intro g cf flw t curr nextSub ctx ix iy sub' ctx' h
    unfold SubdomainRoutineNoSensors at h
    simp only at h
    split at h
    · exact absurd h (by simp)
    split at h
    · exact absurd h (by simp)
    split at h
    · exact absurd h (by simp)
    rcases Prod.mk.injEq .. ▸ Option.some.inj h with ⟨hsub, -⟩
    rw [← hsub]
    have hact : ∀ f : Mat, (AllscaleFromMatrix g
        (setActiveLayer nextSub Layer.Low) f).active = Layer.Low := by
      intro f
      rw [AllscaleFromMatrix_active]
      rfl
    refine ⟨?_, ?_, ?_, ?_⟩
    · intro hpos q hq
      rw [finishNoSensors_active] at hq
      rw [activeData_finishNoSensors_ext g ix iy _ _ rfl]
      exact clampSub_zero g _ (abc_left_zero g ix iy _ hpos
        (by rw [hact _]; exact hq))
    · intro hpos q hq
      rw [finishNoSensors_active] at hq ⊢
      rw [activeData_finishNoSensors_ext g ix iy _ _ rfl]
      exact clampSub_zero g _
        (abc_right_zero_at g ix iy _ Layer.Low hpos (hact _) hq)
    · intro hpos p hp
      rw [finishNoSensors_active] at hp
      rw [activeData_finishNoSensors_ext g ix iy _ _ rfl]
      exact clampSub_zero g _ (abc_down_zero g ix iy _ hpos
        (by rw [hact _]; exact hp))
    · intro hpos p hp
      rw [finishNoSensors_active] at hp ⊢
      rw [activeData_finishNoSensors_ext g ix iy _ _ rfl]
      exact clampSub_zero g _
        (abc_up_zero_at g ix iy _ Layer.Low hpos (hact _) hp)

/-- Concrete data for the C2 witness: a single 1 × 1 subdomain (extended
matrices of order 9), zero diffusion and flow, noise-free Q and R. -/
def gW : Geom := ⟨1, 1, 1, 1, 1, 1⟩

def subWF : Subdomain := ⟨fun _ _ => 1, fun _ _ => 1, Layer.Fine⟩

def subWL : Subdomain := ⟨fun _ _ => 1, fun _ _ => 1, Layer.Low⟩

def cfW : Conf := ⟨0, 1, 1, 1, 0, 0⟩

def ctxW : Ctx := ⟨fun _ _ => 1, fun _ _ => 0, fun _ _ => 0, fun _ _ => 0,
  fun _ c => if c = 0 then 1 else 0, fun _ _ => 1, fun _ => 0, 1, 1, (0, 0)⟩

set_option maxRecDepth 40000 in
theorem claim_C2_witness :
    (∃ r, SubdomainRoutineKalman gW cfW 1 (fun _ _ => 0) (fun _ => 0)
        (fun _ => 0) (0, 0) true 0 (fun _ _ => subWF) subWF ctxW 0 0 =
        some r ∧
      ∀ x y, x < (gW.sizeAt r.1.active).1 → y < (gW.sizeAt r.1.active).2 →
        0 ≤ activeData r.1 x y) ∧
    (∃ r, SubdomainRoutineNoSensors gW cfW (0, 0) true 0 (fun _ _ => subWL)
        subWL ctxW 0 0 = some r ∧
      ∀ x y, x < (gW.sizeAt r.1.active).1 → y < (gW.sizeAt r.1.active).2 →
        0 ≤ activeData r.1 x y) := by
  constructor
  · have hs : (SubdomainRoutineKalman gW cfW 1 (fun _ _ => 0) (fun _ => 0)
        (fun _ => 0) (0, 0) true 0 (fun _ _ => subWF) subWF ctxW 0 0).isSome
        = true := by with_unfolding_all decide
    rcases Option.isSome_iff_exists.mp hs with ⟨r, hr⟩
    have hr' : SubdomainRoutineKalman gW cfW 1 (fun _ _ => 0) (fun _ => 0)
        (fun _ => 0) (0, 0) true 0 (fun _ _ => subWF) subWF ctxW 0 0 =
        some (r.1, r.2) := by
      rw [Prod.mk.eta]; exact hr
    exact ⟨r, hr, claim_C2_nonnegativity.1 gW cfW 1 (fun _ _ => 0)
      (fun _ => 0) (fun _ => 0) (0, 0) true 0 (fun _ _ => subWF) subWF ctxW
      0 0 r.1 r.2 hr'⟩
  · have hs : (SubdomainRoutineNoSensors gW cfW (0, 0) true 0
        (fun _ _ => subWL) subWL ctxW 0 0).isSome = true := by
      with_unfolding_all decide
    rcases Option.isSome_iff_exists.mp hs with ⟨r, hr⟩
    have hr' : SubdomainRoutineNoSensors gW cfW (0, 0) true 0
        (fun _ _ => subWL) subWL ctxW 0 0 = some (r.1, r.2) := by
      rw [Prod.mk.eta]; exact hr
    exact ⟨r, hr, claim_C2_nonnegativity.2 gW cfW (0, 0) true 0
      (fun _ _ => subWL) subWL ctxW 0 0 r.1 r.2 hr'⟩

set_option maxRecDepth 40000 in
theorem claim_C3_witness :
    (∃ r, SubdomainRoutineKalman gW cfW 1 (fun _ _ => 0) (fun _ => 0)
        (fun _ => 0) (1, 1) true 0 (fun _ _ => subWF) subWF ctxW 0 0 =
        some r ∧
      (∀ q, q < (gW.sizeAt r.1.active).2 → activeData r.1 0 q = 0) ∧
      (∀ q, q < (gW.sizeAt r.1.active).2 →
        activeData r.1 ((gW.sizeAt r.1.active).1 - 1) q = 0) ∧
      (∀ p, p < (gW.sizeAt r.1.active).1 → activeData r.1 p 0 = 0) ∧
      (∀ p, p < (gW.sizeAt r.1.active).1 →
        activeData r.1 p ((gW.sizeAt r.1.active).2 - 1) = 0)) ∧
    (∃ r, SubdomainRoutineNoSensors gW cfW (1, 1) true 0 (fun _ _ => subWL)
        subWL ctxW 0 0 = some r ∧
      (∀ q, q < (gW.sizeAt r.1.active).2 → activeData r.1 0 q = 0) ∧
      (∀ q, q < (gW.sizeAt r.1.active).2 →
        activeData r.1 ((gW.sizeAt r.1.active).1 - 1) q = 0) ∧
      (∀ p, p < (gW.sizeAt r.1.active).1 → activeData r.1 p 0 = 0) ∧
      (∀ p, p < (gW.sizeAt r.1.active).1 →
        activeData r.1 p ((gW.sizeAt r.1.active).2 - 1) = 0)) := by
  constructor
  · have hs : (SubdomainRoutineKalman gW cfW 1 (fun _ _ => 0) (fun _ => 0)
        (fun _ => 0) (1, 1) true 0 (fun _ _ => subWF) subWF ctxW 0 0).isSome
        = true := by with_unfolding_all decide
    rcases Option.isSome_iff_exists.mp hs with ⟨r, hr⟩
    have hr' : SubdomainRoutineKalman gW cfW 1 (fun _ _ => 0) (fun _ => 0)
        (fun _ => 0) (1, 1) true 0 (fun _ _ => subWF) subWF ctxW 0 0 =
        some (r.1, r.2) := by
      rw [Prod.mk.eta]; exact hr
    obtain ⟨h1, h2, h3, h4⟩ := claim_C3_outer_dirichlet.1 gW cfW 1
      (fun _ _ => 0) (fun _ => 0) (fun _ => 0) (1, 1) 0 (fun _ _ => subWF)
      subWF ctxW 0 0 r.1 r.2 hr'
    exact ⟨r, hr, h1 rfl, h2 rfl, h3 rfl, h4 rfl⟩
  · have hs : (SubdomainRoutineNoSensors gW cfW (1, 1) true 0
        (fun _ _ => subWL) subWL ctxW 0 0).isSome = true := by
      with_unfolding_all decide
    rcases Option.isSome_iff_exists.mp hs with ⟨r, hr⟩
    have hr' : SubdomainRoutineNoSensors gW cfW (1, 1) true 0
        (fun _ _ => subWL) subWL ctxW 0 0 = some (r.1, r.2) := by
      rw [Prod.mk.eta]; exact hr
    obtain ⟨h1, h2, h3, h4⟩ := claim_C3_outer_dirichlet.2 gW cfW (1, 1) 0
      (fun _ _ => subWL) subWL ctxW 0 0 r.1 r.2 hr'
    exact ⟨r, hr, h1 rfl, h2 rfl, h3 rfl, h4 rfl⟩

/-- C6.  Scheduling asymmetry of the two per-subdomain routines: a subdomain
without sensors rebuilds its inverse model matrix with the effective time
step `dt / Nschwarz` and LU-solves the field in every sub-iteration, while a
subdomain with sensors builds the matrix with the full time step `dt` and
runs the prior propagation `PropagateStateInverse` exactly at the
sub-iterations with `t % Nschwarz = 0`, leaving `B`, `Q`, `R` and `z`
untouched (only the filter runs) at every other sub-iteration. -/
theorem claim_C6_schedule :
    (∀ (g : Geom) (cf : Conf) (flw : ℚ × ℚ) (external : Bool) (t : Nat)
        (curr : Domain) (nextSub : Subdomain) (ctx : Ctx) (ix iy : Nat)
        (sub' : Subdomain) (ctx' : Ctx), 0 < ctx.Nschwarz →
      SubdomainRoutineNoSensors g cf flw external t curr nextSub ctx ix iy =
          some (sub', ctx') →
      ctx'.B = InverseModelMatrix cf.D (cf.dt / (ctx.Nschwarz : ℚ)) cf.dx
          cf.dy flw g.lowX g.lowY 0 ∧
      ∃ xv, luSolveVec ((g.lowX + 2) * (g.lowY + 2))
          (InverseModelMatrix cf.D cf.dt cf.dx cf.dy flw g.lowX g.lowY
            ctx.Nschwarz)
          (vecOfMat g.lowY (MatrixFromAllscale g ctx.field curr ix iy)) =
          some xv ∧ ctx'.field = matOfVec g.lowY xv) ∧
    (∀ (g : Geom) (cf : Conf) (m : Nat) (obs : Nat → Nat → ℚ)
        (qd rd : Nat → ℚ) (flw : ℚ × ℚ) (external : Bool) (t : Nat)
        (curr : Domain) (nextSub : Subdomain) (ctx : Ctx) (ix iy : Nat)
        (sub' : Subdomain) (ctx' : Ctx), t % ctx.Nschwarz = 0 →
      SubdomainRoutineKalman g cf m obs qd rd flw external t curr nextSub
          ctx ix iy = some (sub', ctx') →
      ctx'.B = InverseModelMatrix cf.D cf.dt cf.dx cf.dy flw g.fineX
          g.fineY 0 ∧
      ctx'.Q = ComputeQ cf.noiseQ qd ∧
      ctx'.z = GetObservations obs (t / ctx.Nschwarz) ∧
      ∃ xp, PropagateStateInverse ((g.fineX + 2) * (g.fineY + 2))
          (vecOfMat g.fineY (MatrixFromAllscale g ctx.field curr ix iy))
          ctx.P (InverseModelMatrix cf.D cf.dt cf.dx cf.dy flw g.fineX
            g.fineY 0) (ComputeQ cf.noiseQ qd) = some xp) ∧
    (∀ (g : Geom) (cf : Conf) (m : Nat) (obs : Nat → Nat → ℚ)
        (qd rd : Nat → ℚ) (flw : ℚ × ℚ) (external : Bool) (t : Nat)
        (curr : Domain) (nextSub : Subdomain) (ctx : Ctx) (ix iy : Nat)
        (sub' : Subdomain) (ctx' : Ctx), t % ctx.Nschwarz ≠ 0 →
      SubdomainRoutineKalman g cf m obs qd rd flw external t curr nextSub
          ctx ix iy = some (sub', ctx') →
      ctx'.B = ctx.B ∧ ctx'.Q = ctx.Q ∧ ctx'.R = ctx.R ∧ ctx'.z = ctx.z ∧
      ∃ xP, SolveFilter ((g.fineX + 2) * (g.fineY + 2)) m
          (vecOfMat g.fineY (MatrixFromAllscale g ctx.field curr ix iy))
          ctx.P ctx.H ctx.R ctx.z = some xP ∧
        ctx'.field = matOfVec g.fineY xP.1 ∧ ctx'.P = xP.2) := by
  refine ⟨?_, ?_, ?_⟩
  · intro g cf flw external t curr nextSub ctx ix iy sub' ctx' hk h
    unfold SubdomainRoutineNoSensors at h
    simp only at h
    split at h
    · exact absurd h (by simp)
    split at h
    · exact absurd h (by simp)
    split at h
    · exact absurd h (by simp)
    rename_i x1 xv heq1
    rcases Prod.mk.injEq .. ▸ Option.some.inj h with ⟨hsub, hctx⟩
    rw [← hctx]
    constructor
    · exact InverseModelMatrix_div cf.D cf.dt cf.dx cf.dy flw g.lowX g.lowY
        ctx.Nschwarz hk
    · exact ⟨xv, heq1, rfl⟩
  · intro g cf m obs qd rd flw external t curr nextSub ctx ix iy sub' ctx'
      ht h
    unfold SubdomainRoutineKalman at h
    simp only at h
    split at h
    · exact absurd h (by simp)
    split at h
    · exact absurd h (by simp)
    split at h
    · exact absurd h (by simp)
    split at h
    · exact absurd h (by simp)
    rename_i x1 field1 P1 B' Q' R' z' heq1 x2 xP heq2
    rcases Prod.mk.injEq .. ▸ Option.some.inj h with ⟨hsub, hctx⟩
    rcases Option.map_eq_some'.mp heq1 with ⟨a, ha, htup⟩
    simp only [Prod.mk.injEq] at htup
    obtain ⟨hf, hP, hB, hQ, hR, hz⟩ := htup
    subst hf hP hB hQ hR hz
    rw [← hctx]
    exact ⟨rfl, rfl, rfl, a, ha⟩
  · intro g cf m obs qd rd flw external t curr nextSub ctx ix iy sub' ctx'
      ht h
    unfold SubdomainRoutineKalman at h
    simp only at h
    split at h
    · exact absurd h (by simp)
    split at h
    · exact absurd h (by simp)
    split at h
    · exact absurd h (by simp)
    split at h
    · exact absurd h (by simp)
    rename_i x1 field1 P1 B' Q' R' z' heq1 x2 xP heq2
    rcases Prod.mk.injEq .. ▸ Option.some.inj h with ⟨hsub, hctx⟩
    have htup := Option.some.inj heq1
    simp only [Prod.mk.injEq] at htup
    obtain ⟨hf, hP, hB, hQ, hR, hz⟩ := htup
    subst hf hP hB hQ hR hz
    rw [← hctx]
    exact ⟨rfl, rfl, rfl, rfl, xP, heq2, rfl, rfl⟩

/-- Context for the sub-iteration part of the C6 witness: two Schwarz
sub-iterations per step. -/
def ctxW2 : Ctx := { ctxW with Nschwarz := 2 }

set_option maxRecDepth 40000 in
theorem claim_C6_witness :
    (∃ r, SubdomainRoutineNoSensors gW cfW (0, 0) true 0 (fun _ _ => subWL)
        subWL ctxW 0 0 = some r ∧
      r.2.B = InverseModelMatrix cfW.D (cfW.dt / (ctxW.Nschwarz : ℚ)) cfW.dx
          cfW.dy (0, 0) gW.lowX gW.lowY 0 ∧
      ∃ xv, luSolveVec ((gW.lowX + 2) * (gW.lowY + 2))
          (InverseModelMatrix cfW.D cfW.dt cfW.dx cfW.dy (0, 0) gW.lowX
            gW.lowY ctxW.Nschwarz)
          (vecOfMat gW.lowY (MatrixFromAllscale gW ctxW.field
            (fun _ _ => subWL) 0 0)) = some xv ∧
        r.2.field = matOfVec gW.lowY xv) ∧
    (∃ r, SubdomainRoutineKalman gW cfW 1 (fun _ _ => 0) (fun _ => 0)
        (fun _ => 0) (0, 0) true 0 (fun _ _ => subWF) subWF ctxW 0 0 =
        some r ∧
      r.2.B = InverseModelMatrix cfW.D cfW.dt cfW.dx cfW.dy (0, 0) gW.fineX
          gW.fineY 0 ∧
      r.2.Q = ComputeQ cfW.noiseQ (fun _ => 0) ∧
      r.2.z = GetObservations (fun _ _ => 0) (0 / ctxW.Nschwarz) ∧
      ∃ xp, PropagateStateInverse ((gW.fineX + 2) * (gW.fineY + 2))
          (vecOfMat gW.fineY (MatrixFromAllscale gW ctxW.field
            (fun _ _ => subWF) 0 0)) ctxW.P
          (InverseModelMatrix cfW.D cfW.dt cfW.dx cfW.dy (0, 0) gW.fineX
            gW.fineY 0) (ComputeQ cfW.noiseQ (fun _ => 0)) = some xp) ∧
    (∃ r, SubdomainRoutineKalman gW cfW 1 (fun _ _ => 0) (fun _ => 0)
        (fun _ => 0) (0, 0) true 1 (fun _ _ => subWF) subWF ctxW2 0 0 =
        some r ∧
      r.2.B = ctxW2.B ∧ r.2.Q = ctxW2.Q ∧ r.2.R = ctxW2.R ∧
      r.2.z = ctxW2.z ∧
      ∃ xP, SolveFilter ((gW.fineX + 2) * (gW.fineY + 2)) 1
          (vecOfMat gW.fineY (MatrixFromAllscale gW ctxW2.field
            (fun _ _ => subWF) 0 0)) ctxW2.P ctxW2.H ctxW2.R ctxW2.z =
          some xP ∧
        r.2.field = matOfVec gW.fineY xP.1 ∧ r.2.P = xP.2) := by
  refine ⟨?_, ?_, ?_⟩
  · have hs : (SubdomainRoutineNoSensors gW cfW (0, 0) true 0
        (fun _ _ => subWL) subWL ctxW 0 0).isSome = true := by
      with_unfolding_all decide
    rcases Option.isSome_iff_exists.mp hs with ⟨r, hr⟩
    have hr' : SubdomainRoutineNoSensors gW cfW (0, 0) true 0
        (fun _ _ => subWL) subWL ctxW 0 0 = some (r.1, r.2) := by
      rw [Prod.mk.eta]; exact hr
    exact ⟨r, hr, claim_C6_schedule.1 gW cfW (0, 0) true 0
      (fun _ _ => subWL) subWL ctxW 0 0 r.1 r.2 (by decide) hr'⟩
  · have hs : (SubdomainRoutineKalman gW cfW 1 (fun _ _ => 0) (fun _ => 0)
        (fun _ => 0) (0, 0) true 0 (fun _ _ => subWF) subWF ctxW 0 0).isSome
        = true := by with_unfolding_all decide
    rcases Option.isSome_iff_exists.mp hs with ⟨r, hr⟩
    have hr' : SubdomainRoutineKalman gW cfW 1 (fun _ _ => 0) (fun _ => 0)
        (fun _ => 0) (0, 0) true 0 (fun _ _ => subWF) subWF ctxW 0 0 =
        some (r.1, r.2) := by
      rw [Prod.mk.eta]; exact hr
    exact ⟨r, hr, claim_C6_schedule.2.1 gW cfW 1 (fun _ _ => 0) (fun _ => 0)
      (fun _ => 0) (0, 0) true 0 (fun _ _ => subWF) subWF ctxW 0 0 r.1 r.2
      (by decide) hr'⟩
  · have hs : (SubdomainRoutineKalman gW cfW 1 (fun _ _ => 0) (fun _ => 0)
        (fun _ => 0) (0, 0) true 1 (fun _ _ => subWF) subWF ctxW2 0 0).isSome
        = true := by with_unfolding_all decide
    rcases Option.isSome_iff_exists.mp hs with ⟨r, hr⟩
    have hr' : SubdomainRoutineKalman gW cfW 1 (fun _ _ => 0) (fun _ => 0)
        (fun _ => 0) (0, 0) true 1 (fun _ _ => subWF) subWF ctxW2 0 0 =
        some (r.1, r.2) := by
      rw [Prod.mk.eta]; exact hr
    exact ⟨r, hr, claim_C6_schedule.2.2 gW cfW 1 (fun _ _ => 0) (fun _ => 0)
      (fun _ => 0) (0, 0) true 1 (fun _ _ => subWF) subWF ctxW2 0 0 r.1 r.2
      (by decide) hr'⟩

end Amdados
